import Mathlib

/-!
# Verification of the gobang-game core (board/rules engine and heuristic move selector)

Shallow embedding of the repository's core:

* `src/src/types/game.ts` — type definitions (`Stone`, `Position`, `GameStatus`,
  `HistoryItem`, `GameConfig`).
* the `Game` class — board state, `placeStone`, `undo`, `checkWin`, `isDraw`,
  `getEmptyPositions`, constructor/`reset`.
* `src/src/core/AI.ts` — the `AI` class: `checkWinAt`, `evaluatePosition`,
  `getNormalMove`, `getHardMove`, `findWinningMoves`, `findBlockingMoves`.

Modelling conventions:

* The TS board is a `boardSize × boardSize` array of `Stone | null`; we use
  `List (List (Option Stone))`.  Reads/writes through `getCell`/`setCell` mirror
  `board[r][c]`; out-of-range reads yield `none` (the source always guards reads
  with explicit bounds checks, which we reproduce).
* TS `number` indices may be negative, so coordinates are `Int`.
* The `while` loops that walk along a direction are modelled by fuel recursion.
  Every walk direction is one of the eight unit king-step vectors, so a walk
  visits at most `boardSize` in-bounds cells; fuel `boardSize + 1` therefore
  always makes the loop stop on its own condition, never on fuel exhaustion
  (this is proved in `walkCount_le_board` below).
* `Date.now()` is an input: `placeStone` takes the timestamp as a parameter.
* Player display names and `timeUsed` tracking are omitted: no modelled
  operation reads them; the per-player `moveCount` counters are kept.
* The mutation of the game object is modelled by state passing: `placeStone`
  and `undo` return `Bool × Game` (the TS return value and the updated state).
-/

/-- `Stone` from `src/src/types/game.ts`: `'black' | 'white'`. -/
inductive Stone where
  | black
  | white
  deriving DecidableEq, Repr

/-- The other player's stone: `stone === 'black' ? 'white' : 'black'`. -/
def Stone.other : Stone → Stone
  | .black => .white
  | .white => .black

/-- `Position` from `src/src/types/game.ts`: `{ row: number; col: number }`. -/
@[ext]
structure Position where
  row : Int
  col : Int
  deriving DecidableEq, Repr

/-- `GameMode` from `src/src/types/game.ts`: `'pvp' | 'pve'`. -/
inductive GameMode where
  | pvp
  | pve
  deriving DecidableEq, Repr

/-- `GameStatus` from `src/src/types/game.ts`. -/
inductive GameStatus where
  | playing
  | blackWin
  | whiteWin
  | draw
  | paused
  deriving DecidableEq, Repr

/-- `GameDifficulty` from `src/src/types/game.ts`: `'easy' | 'normal' | 'hard'`. -/
inductive GameDifficulty where
  | easy
  | normal
  | hard
  deriving DecidableEq, Repr

/-- `HistoryItem` from `src/src/types/game.ts`. -/
structure HistoryItem where
  position : Position
  stone : Stone
  moveNumber : Nat
  timestamp : Nat
  deriving DecidableEq, Repr

/-- `GameConfig` from `src/src/types/game.ts` (`difficulty` and `timeLimit`
are optional in TS). -/
structure GameConfig where
  boardSize : Nat
  winCount : Nat
  gameMode : GameMode
  difficulty : Option GameDifficulty
  timeLimit : Option Nat
  deriving DecidableEq, Repr

/-- `DEFAULT_BOARD_SIZE = 15`, `DEFAULT_WIN_COUNT = 5`, and the other defaults
the `Game` constructor fills in before spreading the caller's partial config. -/
def defaultConfig : GameConfig :=
  { boardSize := 15, winCount := 5, gameMode := .pvp
    difficulty := some .easy, timeLimit := none }

/-- The board: `(Stone | null)[][]`. -/
abbrev Board := List (List (Option Stone))

/-- Raw cell read `board[r][c]`; `none` for an empty cell and also for any
out-of-range access (the source only reads after an explicit bounds check). -/
def getCell (bd : Board) (r c : Int) : Option Stone :=
  if 0 ≤ r ∧ 0 ≤ c then
    match bd[r.toNat]? with
    | some rowList => rowList[c.toNat]?.getD none
    | none => none
  else none

/-- Cell write `board[r][c] = v` (in-place row mutation modelled by `List.set`). -/
def setCell (bd : Board) (r c : Int) (v : Option Stone) : Board :=
  if 0 ≤ r ∧ 0 ≤ c then
    bd.set r.toNat ((bd[r.toNat]?.getD []).set c.toNat v)
  else bd

/-- The bounds check `r >= 0 && r < boardSize && c >= 0 && c < boardSize`
repeated throughout the source. -/
def inB (n : Nat) (r c : Int) : Prop :=
  0 ≤ r ∧ r < (n : Int) ∧ 0 ≤ c ∧ c < (n : Int)

instance (n : Nat) (r c : Int) : Decidable (inB n r c) :=
  inferInstanceAs (Decidable (0 ≤ r ∧ r < (n : Int) ∧ 0 ≤ c ∧ c < (n : Int)))

/-- One direction of the win-check `while` loop in `Game.checkWin`
(`src/src/types/game.ts` lines 318–333): walk from `(r, c)` by steps
`(dr, dc)` collecting the visited positions while in bounds and holding
`stone`.  Fuel recursion; see the header note on fuel. -/
def walkPositions (n : Nat) (bd : Board) (s : Stone) (dr dc : Int) :
    Int → Int → Nat → List Position
  | _, _, 0 => []
  | r, c, fuel + 1 =>
    if inB n r c ∧ getCell bd r c = some s then
      ⟨r, c⟩ :: walkPositions n bd s dr dc (r + dr) (c + dc) fuel
    else []

/-- The same walk, counting only (`AI.checkWinAt`'s `while` loop,
`src/src/core/AI.ts` lines 228–237). -/
def walkCount (n : Nat) (bd : Board) (s : Stone) (dr dc : Int) :
    Int → Int → Nat → Nat
  | _, _, 0 => 0
  | r, c, fuel + 1 =>
    if inB n r c ∧ getCell bd r c = some s then
      walkCount n bd s dr dc (r + dr) (c + dc) fuel + 1
    else 0

/-- The same walk also reporting the exit coordinates of the loop
(`AI.evaluatePosition` keeps walking `r`, `c` and then inspects the cell just
past the run, `src/src/core/AI.ts` lines 155–177). -/
def walkEnd (n : Nat) (bd : Board) (s : Stone) (dr dc : Int) :
    Int → Int → Nat → Nat × Int × Int
  | r, c, 0 => (0, r, c)
  | r, c, fuel + 1 =>
    if inB n r c ∧ getCell bd r c = some s then
      let rest := walkEnd n bd s dr dc (r + dr) (c + dc) fuel
      (rest.1 + 1, rest.2)
    else (0, r, c)

/-- The four axes of `directions` (each entry in the source pairs a vector with
its negation: `[[0,1],[0,-1]]`, `[[1,0],[-1,0]]`, `[[1,1],[-1,-1]]`,
`[[1,-1],[-1,1]]`); we store the forward vector, the second direction of each
pair being exactly its negation. -/
def axisDirs : List (Int × Int) := [(0, 1), (1, 0), (1, 1), (1, -1)]

/-- One iteration of the outer `for` loop of `Game.checkWin`
(`src/src/types/game.ts` lines 313–339): gather `positions` = the placed
position followed by the two directional walks, and test
`count >= winCount` (`count` is exactly `positions.length`). -/
def axisCheck (n w : Nat) (bd : Board) (p : Position) (s : Stone)
    (dr dc : Int) : Option (List Position) :=
  let ps : List Position :=
    ⟨p.row, p.col⟩ ::
      (walkPositions n bd s dr dc (p.row + dr) (p.col + dc) (n + 1) ++
        walkPositions n bd s (-dr) (-dc) (p.row - dr) (p.col - dc) (n + 1))
  if w ≤ ps.length then some ps else none

/-- `Player` bookkeeping kept by the engine; only the `moveCount` counters are
modelled (names and `timeUsed` are write-only UI data in the covered scope). -/
structure Game where
  config : GameConfig
  board : Board
  currentPlayer : Stone
  gameStatus : GameStatus
  winningPositions : Option (List Position)
  history : List HistoryItem
  lastMove : Option Position
  blackMoveCount : Int
  whiteMoveCount : Int
  deriving DecidableEq, Repr

/-- The `Game` constructor (`src/src/types/game.ts` lines 91–126) after the
defaults have been merged with the caller's partial config: the resulting
`GameConfig` is stored unchanged and the state is initialised. -/
def Game.new (cfg : GameConfig) : Game :=
  { config := cfg
    board := List.replicate cfg.boardSize (List.replicate cfg.boardSize none)
    currentPlayer := .black
    gameStatus := .playing
    winningPositions := none
    history := []
    lastMove := none
    blackMoveCount := 0
    whiteMoveCount := 0 }

/-- `Game.isValidPosition` (lines 291–295). -/
def Game.isValidPosition (g : Game) (p : Position) : Prop :=
  inB g.config.boardSize p.row p.col

instance (g : Game) (p : Position) : Decidable (g.isValidPosition p) :=
  inferInstanceAs (Decidable (inB g.config.boardSize p.row p.col))

/-- `Game.checkWin` (lines 300–343).  Returns the recorded winning positions
when some axis reaches `winCount` (the source sets `this.winningPositions` and
returns `true`), `none` otherwise; axes are tried in the fixed source order and
the first qualifying axis wins.  The source reads the stone with a non-null
assertion (`this.board[row][col]!`); it is only called on the just-placed
cell, so the cell is occupied — an empty cell yields `none` here. -/
def Game.checkWin (g : Game) (p : Position) : Option (List Position) :=
  match getCell g.board p.row p.col with
  | none => none
  | some s =>
    let n := g.config.boardSize
    let w := g.config.winCount
    match axisCheck n w g.board p s 0 1 with
    | some ps => some ps
    | none =>
      match axisCheck n w g.board p s 1 0 with
      | some ps => some ps
      | none =>
        match axisCheck n w g.board p s 1 1 with
        | some ps => some ps
        | none => axisCheck n w g.board p s 1 (-1)

/-- `Game.isDraw` (lines 348–358): the board is full. -/
def Game.isDraw (g : Game) : Bool :=
  (List.range g.config.boardSize).all fun r =>
    (List.range g.config.boardSize).all fun c =>
      (getCell g.board (r : Int) (c : Int)).isSome

/-- `Game.getEmptyPositions` (lines 382–392): row-major list of empty cells. -/
def Game.getEmptyPositions (g : Game) : List Position :=
  (List.range g.config.boardSize).flatMap fun r : Nat =>
    (List.range g.config.boardSize).filterMap fun c : Nat =>
      if getCell g.board (r : Int) (c : Int) = none then
        some ⟨(r : Int), (c : Int)⟩
      else none

/-- The state after the mutation block of a legal `placeStone` (lines
221–236): record history, place the stone, update `lastMove` and the mover's
`moveCount` — before the win/draw evaluation. -/
def Game.placed (g : Game) (p : Position) (ts : Nat) : Game :=
  { g with
    board := setCell g.board p.row p.col (some g.currentPlayer)
    lastMove := some p
    history := g.history ++
      [{ position := p, stone := g.currentPlayer
         moveNumber := g.history.length + 1, timestamp := ts }]
    blackMoveCount :=
      if g.currentPlayer = .black then g.blackMoveCount + 1
      else g.blackMoveCount
    whiteMoveCount :=
      if g.currentPlayer = .white then g.whiteMoveCount + 1
      else g.whiteMoveCount }

/-- `Game.placeStone` (lines 203–249).  `ts` is the `Date.now()` value. -/
def Game.placeStone (g : Game) (p : Position) (ts : Nat) : Bool × Game :=
  if ¬ g.isValidPosition p then (false, g)
  else if getCell g.board p.row p.col ≠ none then (false, g)
  else if g.gameStatus ≠ .playing then (false, g)
  else
    let g1 : Game := g.placed p ts
    match g1.checkWin p with
    | some ps =>
      (true, { g1 with
        gameStatus := if g.currentPlayer = .black then .blackWin else .whiteWin
        winningPositions := some ps })
    | none =>
      if g1.isDraw then (true, { g1 with gameStatus := .draw })
      else (true, { g1 with currentPlayer := g.currentPlayer.other })

/-- `Game.undo` (lines 255–286). -/
def Game.undo (g : Game) : Bool × Game :=
  if g.history.isEmpty then (false, g)
  else if g.gameStatus ≠ .playing then (false, g)
  else
    match g.history.getLast? with
    | none => (false, g)
    | some item =>
      let hist := g.history.dropLast
      let g1 : Game :=
        { g with
          history := hist
          board := setCell g.board item.position.row item.position.col none
          blackMoveCount :=
            if item.stone = .black then g.blackMoveCount - 1
            else g.blackMoveCount
          whiteMoveCount :=
            if item.stone = .white then g.whiteMoveCount - 1
            else g.whiteMoveCount }
      match hist.getLast? with
      | some prev =>
        (true, { g1 with lastMove := some prev.position
                         currentPlayer := item.stone })
      | none =>
        (true, { g1 with lastMove := none, currentPlayer := .black })

/-! ## The heuristic move selector (`src/src/core/AI.ts`) -/

/-- One axis total of `AI.checkWinAt` (lines 221–242): `count = 1` plus the
two directional walk counts. -/
def axisCount (n : Nat) (bd : Board) (s : Stone) (p : Position)
    (dr dc : Int) : Nat :=
  1 + walkCount n bd s dr dc (p.row + dr) (p.col + dc) (n + 1)
    + walkCount n bd s (-dr) (-dc) (p.row - dr) (p.col - dc) (n + 1)

/-- `AI.checkWinAt` (lines 212–245): some axis reaches `winCount`.  Bounds use
`board.length` as in the source. -/
def checkWinAt (bd : Board) (p : Position) (s : Stone) (w : Nat) : Bool :=
  let n := bd.length
  decide (w ≤ axisCount n bd s p 0 1) || decide (w ≤ axisCount n bd s p 1 0)
    || decide (w ≤ axisCount n bd s p 1 1)
    || decide (w ≤ axisCount n bd s p 1 (-1))

/-- The open-end test of `AI.evaluatePosition` (lines 171–177): the loop-exit
cell is in bounds and empty. -/
def openEndFlag (n : Nat) (bd : Board) (r c : Int) : Nat :=
  if inB n r c ∧ getCell bd r c = none then 1 else 0

/-- The score ladder of `AI.evaluatePosition` (lines 182–203): from the total
`count` on an axis and its number of open ends. -/
def scoreChain (count oe : Nat) : Int :=
  if 5 ≤ count then 100000
  else if count = 4 then
    if oe = 2 then 10000 else if oe = 1 then 1000 else 0
  else if count = 3 then
    if oe = 2 then 500 else if oe = 1 then 100 else 0
  else if count = 2 then
    if oe = 2 then 50 else if oe = 1 then 10 else 0
  else 0

/-- One iteration of the direction loop of `AI.evaluatePosition`
(lines 150–204): walk both ways, count `1 +` the consecutive matches, count
open ends at the two loop-exit cells, then the score ladder. -/
def dirEval (n : Nat) (bd : Board) (p : Position) (s : Stone)
    (dr dc : Int) : Int :=
  let e1 := walkEnd n bd s dr dc (p.row + dr) (p.col + dc) (n + 1)
  let e2 := walkEnd n bd s (-dr) (-dc) (p.row - dr) (p.col - dc) (n + 1)
  scoreChain (1 + e1.1 + e2.1)
    (openEndFlag n bd e1.2.1 e1.2.2 + openEndFlag n bd e2.2.1 e2.2.2)

/-- `AI.evaluatePosition` (lines 140–207): the accumulated score over the four
axes (the source's `score +=` loop). -/
def evaluatePosition (bd : Board) (p : Position) (s : Stone) : Int :=
  dirEval bd.length bd p s 0 1 + dirEval bd.length bd p s 1 0
    + dirEval bd.length bd p s 1 1 + dirEval bd.length bd p s 1 (-1)

/-- The simulated placement `boardCopy[pos.row][pos.col] = stone` used by the
selector's win/block probes.  The probe loops restore the tried cell to `null`
before the next iteration, so on lists of empty positions every probe sees the
snapshot with exactly one hypothetical stone added. -/
def boardPlace (bd : Board) (p : Position) (s : Stone) : Board :=
  setCell bd p.row p.col (some s)

/-- The source score in `AI.getNormalMove` (lines 95–110) is
`evaluatePosition(aiStone) − evaluatePosition(opponent) − 0.1 * d` with
`d = |row − board.length / 2| + |col − board.length / 2|` (real JS division —
there is no `Math.floor` on this center).  We embed 20 times that value, which
is the integer `20 * (evalAi − evalOpp) − (|2*row − n| + |2*col − n|)`;
`x ↦ 20 * x` is strictly monotone, so every comparison the selector makes is
exactly preserved. -/
def normalScore20 (bd : Board) (ai : Stone) (p : Position) : Int :=
  20 * (evaluatePosition bd p ai - evaluatePosition bd p ai.other)
    - (|2 * p.row - (bd.length : Int)| + |2 * p.col - (bd.length : Int)|)

/-- The fallback selection loop of `AI.getNormalMove` (lines 92–112):
`bestScore` starts at `-Infinity` and `bestMove` at `emptyPositions[0]`, so the
first candidate always becomes the running best; a later candidate replaces it
only when strictly greater.  `none` when the list is empty (the source would
index `[0]` out of range). -/
def pickBest (score : Position → Int) : List Position → Option Position
  | [] => none
  | p :: rest =>
    some ((rest.foldl
      (fun best q => if score q > best.2 then (q, score q) else best)
      (p, score p)).1)

/-- `AI.getNormalMove` (lines 66–113): first empty position whose simulated
own placement wins; else first whose simulated opponent placement wins; else
the best-scored position. -/
def getNormalMove (ai : Stone) (w : Nat) (bd : Board)
    (es : List Position) : Option Position :=
  match es.find? fun pos => checkWinAt (boardPlace bd pos ai) pos ai w with
  | some pos => some pos
  | none =>
    match es.find? fun pos =>
        checkWinAt (boardPlace bd pos ai.other) pos ai.other w with
    | some pos => some pos
    | none => pickBest (normalScore20 bd ai) es

/-- `AI.findWinningMoves` (lines 250–266). -/
def findWinningMoves (ai : Stone) (w : Nat) (bd : Board)
    (es : List Position) : List Position :=
  es.filter fun pos => checkWinAt (boardPlace bd pos ai) pos ai w

/-- `AI.findBlockingMoves` (lines 271–288). -/
def findBlockingMoves (ai : Stone) (w : Nat) (bd : Board)
    (es : List Position) : List Position :=
  es.filter fun pos => checkWinAt (boardPlace bd pos ai.other) pos ai.other w

/-- `AI.getHardMove` (lines 118–135): compute the normal-tier move, then the
full winning/blocking move lists; play the first winning move, else the first
blocking move, else the normal-tier move. -/
def getHardMove (ai : Stone) (w : Nat) (bd : Board)
    (es : List Position) : Option Position :=
  let bestMove := getNormalMove ai w bd es
  let winningMoves := findWinningMoves ai w bd es
  let blockingMoves := findBlockingMoves ai w bd es
  match winningMoves with
  | pos :: _ => some pos
  | [] =>
    match blockingMoves with
    | pos :: _ => some pos
    | [] => bestMove

/-! ## Board well-formedness and cell lemmas -/

/-- A well-formed `n × n` board, as built by the constructor and preserved by
every cell write. -/
def BWF (n : Nat) (bd : Board) : Prop :=
  bd.length = n ∧ ∀ rowList ∈ bd, rowList.length = n

lemma BWF_new (n : Nat) :
    BWF n (List.replicate n (List.replicate n (none : Option Stone))) := by
  refine ⟨by simp, fun rowList h => ?_⟩
  simp [List.eq_of_mem_replicate h]

lemma set_of_getElem?_eq {α : Type _} (l : List α) (i : Nat) (a : α)
    (h : l[i]? = some a) : l.set i a = l := by
  induction l generalizing i with
  | nil => simp at h
  | cons x xs ih =>
    cases i with
    | zero => simp_all
    | succ j =>
      simp only [List.getElem?_cons_succ] at h
      simp [ih j h]

lemma getCell_row {bd : Board} {r c : Int} (h0r : 0 ≤ r) (h0c : 0 ≤ c)
    {rowList : List (Option Stone)} (hrow : bd[r.toNat]? = some rowList) :
    getCell bd r c = rowList[c.toNat]?.getD none := by
  unfold getCell
  rw [if_pos ⟨h0r, h0c⟩, hrow]

lemma getCell_row_none {bd : Board} {r c : Int}
    (hrow : bd[r.toNat]? = none) : getCell bd r c = none := by
  unfold getCell
  split
  · rw [hrow]
  · rfl

lemma getCell_eq_of_inB {n : Nat} {bd : Board} (hwf : BWF n bd) {r c : Int}
    (hin : inB n r c) :
    ∃ rowList, bd[r.toNat]? = some rowList ∧ rowList.length = n ∧
      rowList[c.toNat]? = some (getCell bd r c) := by
  obtain ⟨hlen, hrows⟩ := hwf
  obtain ⟨h0r, hrn, h0c, hcn⟩ := hin
  have hrt : r.toNat < bd.length := by omega
  have hrow : bd[r.toNat]? = some bd[r.toNat] := List.getElem?_eq_getElem hrt
  have hrlen : bd[r.toNat].length = n := hrows _ (List.getElem_mem hrt)
  have hct : c.toNat < bd[r.toNat].length := by omega
  have hcell : bd[r.toNat][c.toNat]? = some bd[r.toNat][c.toNat] :=
    List.getElem?_eq_getElem hct
  refine ⟨bd[r.toNat], hrow, hrlen, ?_⟩
  rw [getCell_row h0r h0c hrow, hcell]
  rfl

lemma getCell_some_inB {n : Nat} {bd : Board} (hwf : BWF n bd) {r c : Int}
    {s : Stone} (h : getCell bd r c = some s) : inB n r c := by
  obtain ⟨hlen, hrows⟩ := hwf
  by_cases hg : 0 ≤ r ∧ 0 ≤ c
  · obtain ⟨h0r, h0c⟩ := hg
    rcases hrow : bd[r.toNat]? with _ | rowList
    · rw [getCell_row_none hrow] at h
      exact absurd h (by simp)
    · rw [getCell_row h0r h0c hrow] at h
      rcases hcell : rowList[c.toNat]? with _ | v
      · rw [hcell] at h
        exact absurd h (by simp)
      · have hct : c.toNat < rowList.length := by
          by_contra hge
          rw [List.getElem?_eq_none (by omega)] at hcell
          exact Option.noConfusion hcell
        have hrt : r.toNat < bd.length := by
          by_contra hge
          rw [List.getElem?_eq_none (by omega)] at hrow
          exact Option.noConfusion hrow
        have hrlen : rowList.length = n :=
          hrows _ (List.getElem?_mem hrow)
        exact ⟨h0r, by omega, h0c, by omega⟩
  · unfold getCell at h
    rw [if_neg hg] at h
    exact absurd h (by simp)

lemma BWF_setCell {n : Nat} {bd : Board} (hwf : BWF n bd) (r c : Int)
    (v : Option Stone) : BWF n (setCell bd r c v) := by
  obtain ⟨hlen, hrows⟩ := hwf
  unfold setCell
  split
  · by_cases hrt : r.toNat < bd.length
    · have hrow : bd[r.toNat]? = some bd[r.toNat] := List.getElem?_eq_getElem hrt
      refine ⟨by simpa using hlen, fun rowList h => ?_⟩
      rcases List.mem_or_eq_of_mem_set h with h' | rfl
      · exact hrows _ h'
      · rw [hrow]
        simpa using hrows _ (List.getElem_mem hrt)
    · rw [List.set_eq_of_length_le (by omega)]
      exact ⟨hlen, hrows⟩
  · exact ⟨hlen, hrows⟩

lemma getCell_setCell_self {n : Nat} {bd : Board} (hwf : BWF n bd) {r c : Int}
    (hin : inB n r c) (v : Option Stone) :
    getCell (setCell bd r c v) r c = v := by
  obtain ⟨rowList, hrow, hrlen, hcell⟩ := getCell_eq_of_inB hwf hin
  have hblen : bd.length = n := hwf.1
  obtain ⟨h0r, hrn, h0c, hcn⟩ := hin
  have hrt : r.toNat < bd.length := by omega
  have hct : c.toNat < rowList.length := by omega
  unfold setCell
  rw [if_pos ⟨h0r, h0c⟩, hrow]
  simp only [Option.getD_some]
  have hrow' : (bd.set r.toNat (rowList.set c.toNat v))[r.toNat]? =
      some (rowList.set c.toNat v) := List.getElem?_set_self (by simpa using hrt)
  rw [getCell_row h0r h0c hrow', List.getElem?_set_self (by simpa using hct)]
  rfl

lemma getCell_setCell_ne {n : Nat} {bd : Board} (hwf : BWF n bd) {r c : Int}
    (hin : inB n r c) (v : Option Stone) {r' c' : Int}
    (hne : r' ≠ r ∨ c' ≠ c) :
    getCell (setCell bd r c v) r' c' = getCell bd r' c' := by
  obtain ⟨rowList, hrow, hrlen, hcell⟩ := getCell_eq_of_inB hwf hin
  have hblen : bd.length = n := hwf.1
  obtain ⟨h0r, hrn, h0c, hcn⟩ := hin
  have hrt : r.toNat < bd.length := by omega
  unfold setCell
  rw [if_pos ⟨h0r, h0c⟩, hrow]
  simp only [Option.getD_some]
  by_cases hg : 0 ≤ r' ∧ 0 ≤ c'
  · obtain ⟨h0r', h0c'⟩ := hg
    by_cases hr : r'.toNat = r.toNat
    · have hrr : r' = r := by omega
      have hcc : c' ≠ c := by
        rcases hne with h | h
        · exact absurd hrr h
        · exact h
      have hrow' : (bd.set r.toNat (rowList.set c.toNat v))[r'.toNat]? =
          some (rowList.set c.toNat v) := by
        rw [hr]
        exact List.getElem?_set_self (by simpa using hrt)
      rw [getCell_row h0r' h0c' hrow', getCell_row h0r' h0c' (hrr ▸ hrow)]
      rw [List.getElem?_set_ne (by omega)]
    · have hrow' : (bd.set r.toNat (rowList.set c.toNat v))[r'.toNat]? =
          bd[r'.toNat]? := List.getElem?_set_ne (fun h => hr h.symm)
      rcases hrow2 : bd[r'.toNat]? with _ | rowList'
      · rw [getCell_row_none (hrow'.trans hrow2), getCell_row_none hrow2]
      · rw [getCell_row h0r' h0c' (hrow'.trans hrow2),
          getCell_row h0r' h0c' hrow2]
  · have h1 : getCell (bd.set r.toNat (rowList.set c.toNat v)) r' c' = none := by
      unfold getCell
      rw [if_neg hg]
    have h2 : getCell bd r' c' = none := by
      unfold getCell
      rw [if_neg hg]
    rw [h1, h2]

lemma setCell_cancel {n : Nat} {bd : Board} (hwf : BWF n bd) {r c : Int}
    (hin : inB n r c) (hempty : getCell bd r c = none) (v : Option Stone) :
    setCell (setCell bd r c v) r c none = bd := by
  obtain ⟨rowList, hrow, hrlen, hcell⟩ := getCell_eq_of_inB hwf hin
  rw [hempty] at hcell
  have hblen : bd.length = n := hwf.1
  obtain ⟨h0r, hrn, h0c, hcn⟩ := hin
  have hrt : r.toNat < bd.length := by omega
  unfold setCell
  rw [if_pos ⟨h0r, h0c⟩, hrow]
  simp only [Option.getD_some]
  rw [if_pos ⟨h0r, h0c⟩]
  rw [List.getElem?_set_self (by simpa using hrt), Option.getD_some,
    List.set_set, List.set_set]
  rw [set_of_getElem?_eq rowList c.toNat none hcell,
    set_of_getElem?_eq bd r.toNat rowList hrow]

/-! ## Stone counting (spec-level: "number of non-empty cells") -/

/-- Number of occupied cells on the board. -/
def countStones (bd : Board) : Nat :=
  (bd.map fun rowList => rowList.countP fun cell => cell.isSome).sum

lemma countP_set_from {α : Type _} (p : α → Bool) (l : List α) (i : Nat)
    (a x : α) (h : l[i]? = some a) :
    (l.set i x).countP p + (if p a then 1 else 0) =
      l.countP p + (if p x then 1 else 0) := by
  induction l generalizing i with
  | nil => simp at h
  | cons y ys ih =>
    cases i with
    | zero =>
      simp only [List.getElem?_cons_zero, Option.some.injEq] at h
      subst h
      simp only [List.set_cons_zero, List.countP_cons]
      by_cases hx : p x <;> by_cases hy : p y <;> simp [hx, hy]
    | succ j =>
      simp only [List.getElem?_cons_succ] at h
      simp only [List.set_cons_succ, List.countP_cons]
      have := ih j h
      by_cases hy : p y <;> simp [hy] <;> omega

lemma sum_map_set {α : Type _} (f : α → Nat) (l : List α) (i : Nat) (x a : α)
    (h : l[i]? = some a) :
    ((l.set i x).map f).sum + f a = (l.map f).sum + f x := by
  induction l generalizing i with
  | nil => simp at h
  | cons y ys ih =>
    cases i with
    | zero =>
      simp only [List.getElem?_cons_zero, Option.some.injEq] at h
      subst h
      simp [List.set_cons_zero]
      omega
    | succ j =>
      simp only [List.getElem?_cons_succ] at h
      have hsum := ih j h
      simp only [List.set_cons_succ, List.map_cons, List.sum_cons,
        List.map_set] at hsum ⊢
      omega

lemma countStones_setCell {n : Nat} {bd : Board} (hwf : BWF n bd) {r c : Int}
    (hin : inB n r c) (v : Option Stone) :
    countStones (setCell bd r c v) +
        (if (getCell bd r c).isSome then 1 else 0) =
      countStones bd + (if v.isSome then 1 else 0) := by
  obtain ⟨rowList, hrow, hrlen, hcell⟩ := getCell_eq_of_inB hwf hin
  obtain ⟨h0r, hrn, h0c, hcn⟩ := hin
  unfold setCell countStones
  rw [if_pos ⟨h0r, h0c⟩, hrow]
  simp only [Option.getD_some]
  have hrowcount := countP_set_from (fun cell => cell.isSome) rowList c.toNat
    (getCell bd r c) v hcell
  have hsum := sum_map_set (fun rowList => rowList.countP fun cell => cell.isSome)
    bd r.toNat (rowList.set c.toNat v) rowList hrow
  simp only at hsum hrowcount ⊢
  omega

/-! ## Walk lemmas

The directional walks visit the cells `(r + i*dr, c + i*dc)`, `i = 0, 1, …`,
while they are in bounds and hold `s`. -/

lemma walkPositions_length (n : Nat) (bd : Board) (s : Stone) (dr dc : Int)
    (r c : Int) (fuel : Nat) :
    (walkPositions n bd s dr dc r c fuel).length =
      walkCount n bd s dr dc r c fuel := by
  induction fuel generalizing r c with
  | zero => rfl
  | succ fuel ih =>
    rw [walkPositions, walkCount]
    split
    · simp [ih]
    · rfl

lemma walkEnd_fst (n : Nat) (bd : Board) (s : Stone) (dr dc : Int)
    (r c : Int) (fuel : Nat) :
    (walkEnd n bd s dr dc r c fuel).1 = walkCount n bd s dr dc r c fuel := by
  induction fuel generalizing r c with
  | zero => rfl
  | succ fuel ih =>
    rw [walkEnd, walkCount]
    split
    · simp [ih]
    · rfl

lemma walkEnd_snd (n : Nat) (bd : Board) (s : Stone) (dr dc : Int)
    (r c : Int) (fuel : Nat) :
    (walkEnd n bd s dr dc r c fuel).2 =
      (r + (walkCount n bd s dr dc r c fuel : Int) * dr,
       c + (walkCount n bd s dr dc r c fuel : Int) * dc) := by
  induction fuel generalizing r c with
  | zero => simp [walkEnd, walkCount]
  | succ fuel ih =>
    rw [walkEnd, walkCount]
    split
    · simp only [ih]
      rw [Prod.mk.injEq]
      refine ⟨?_, ?_⟩ <;> push_cast <;> ring
    · simp

lemma walkCount_cells {n : Nat} {bd : Board} {s : Stone} {dr dc : Int}
    {r c : Int} {fuel : Nat} :
    ∀ i : Nat, i < walkCount n bd s dr dc r c fuel →
      inB n (r + i * dr) (c + i * dc) ∧
        getCell bd (r + i * dr) (c + i * dc) = some s := by
  induction fuel generalizing r c with
  | zero => intro i h; simp [walkCount] at h
  | succ fuel ih =>
    intro i hi
    rw [walkCount] at hi
    split at hi
    · rename_i hok
      cases i with
      | zero => simpa using hok
      | succ j =>
        have hj := @ih (r + dr) (c + dc) j (by omega)
        have hr : r + (↑(j + 1)) * dr = (r + dr) + ↑j * dr := by push_cast; ring
        have hc : c + (↑(j + 1)) * dc = (c + dc) + ↑j * dc := by push_cast; ring
        rw [hr, hc]
        exact hj
    · omega

lemma walkCount_ge {n : Nat} {bd : Board} {s : Stone} {dr dc : Int}
    {r c : Int} {fuel : Nat} (m : Nat) (hm : m ≤ fuel)
    (h : ∀ i : Nat, i < m →
      inB n (r + i * dr) (c + i * dc) ∧
        getCell bd (r + i * dr) (c + i * dc) = some s) :
    m ≤ walkCount n bd s dr dc r c fuel := by
  induction fuel generalizing r c m with
  | zero => omega
  | succ fuel ih =>
    cases m with
    | zero => omega
    | succ k =>
      have h0 := h 0 (by omega)
      simp only [Nat.cast_zero, zero_mul, add_zero] at h0
      rw [walkCount, if_pos h0]
      have hk : k ≤ walkCount n bd s dr dc (r + dr) (c + dc) fuel := by
        refine ih k (by omega) fun i hi => ?_
        have hs := h (i + 1) (by omega)
        have hr : r + (↑(i + 1)) * dr = (r + dr) + ↑i * dr := by push_cast; ring
        have hc : c + (↑(i + 1)) * dc = (c + dc) + ↑i * dc := by push_cast; ring
        rw [hr, hc] at hs
        exact hs
      omega

lemma walkCount_le_fuel {n : Nat} {bd : Board} {s : Stone} {dr dc : Int}
    {r c : Int} {fuel : Nat} : walkCount n bd s dr dc r c fuel ≤ fuel := by
  induction fuel generalizing r c with
  | zero => simp [walkCount]
  | succ fuel ih =>
    rw [walkCount]
    split
    · exact Nat.succ_le_succ ih
    · omega

lemma walkCount_stop {n : Nat} {bd : Board} {s : Stone} {dr dc : Int}
    {r c : Int} {fuel : Nat}
    (h : walkCount n bd s dr dc r c fuel < fuel) :
    ¬(inB n (r + (walkCount n bd s dr dc r c fuel) * dr)
          (c + (walkCount n bd s dr dc r c fuel) * dc) ∧
        getCell bd (r + (walkCount n bd s dr dc r c fuel) * dr)
            (c + (walkCount n bd s dr dc r c fuel) * dc) = some s) := by
  induction fuel generalizing r c with
  | zero => omega
  | succ fuel ih =>
    rw [walkCount] at h ⊢
    split at h
    · rename_i hok
      rw [if_pos hok]
      have hlt : walkCount n bd s dr dc (r + dr) (c + dc) fuel < fuel := by
        omega
      have := ih hlt
      set k := walkCount n bd s dr dc (r + dr) (c + dc) fuel with hk
      have hr : r + (↑(k + 1)) * dr = (r + dr) + ↑k * dr := by push_cast; ring
      have hc : c + (↑(k + 1)) * dc = (c + dc) + ↑k * dc := by push_cast; ring
      rw [hr, hc]
      exact this
    · rename_i hok
      rw [if_neg hok]
      simpa using hok

/-- Every direction the source walks along is a king-step: each coordinate of
the step vector is `1`, `-1` or `0`, and the vector is nonzero. -/
def axisOK (dr dc : Int) : Prop :=
  (dr = 1 ∨ dr = -1 ∨ dr = 0) ∧ (dc = 1 ∨ dc = -1 ∨ dc = 0) ∧
    ¬(dr = 0 ∧ dc = 0)

/-- A walk along a king-step direction visits pairwise distinct in-bounds
cells of an `n × n` frame, so it counts at most `n` cells: with fuel `n + 1`
the modelled `while` loop always terminates on its own condition. -/
lemma walkCount_le_board {n : Nat} {bd : Board} {s : Stone} {dr dc : Int}
    {r c : Int} {fuel : Nat} (haxis : axisOK dr dc) :
    walkCount n bd s dr dc r c fuel ≤ n := by
  rcases Nat.eq_zero_or_pos (walkCount n bd s dr dc r c fuel) with hz | hpos
  · omega
  · have h0 := (@walkCount_cells n bd s dr dc r c fuel 0 (by omega)).1
    have hlast := (@walkCount_cells n bd s dr dc r c fuel
      (walkCount n bd s dr dc r c fuel - 1) (by omega)).1
    set k := walkCount n bd s dr dc r c fuel with hk
    simp only [Nat.cast_zero, zero_mul, add_zero] at h0
    obtain ⟨hdr, hdc, hnz⟩ := haxis
    obtain ⟨h0r, hrn, h0c, hcn⟩ := h0
    obtain ⟨h0r', hrn', h0c', hcn'⟩ := hlast
    rcases hdr with h | h | h <;> rcases hdc with h' | h' | h' <;>
      subst h <;> subst h' <;>
      simp only [mul_one, mul_neg_one, mul_zero, add_zero]
        at hrn' h0r' hcn' h0c' <;>
      omega

/-! ## Spec-level run predicate and its equivalence with the walks -/

/-- Spec-level: a contiguous run of at least `w` same-owner cells through `p`
along the axis `(dr, dc)` — a window of offsets `[lo, hi]` containing `0`
whose cells all hold `s`. -/
def hasRunDir (bd : Board) (s : Stone) (p : Position) (dr dc : Int)
    (w : Nat) : Prop :=
  ∃ lo hi : Int, lo ≤ 0 ∧ 0 ≤ hi ∧ (w : Int) ≤ hi - lo + 1 ∧
    ∀ i : Int, lo ≤ i → i ≤ hi →
      getCell bd (p.row + i * dr) (p.col + i * dc) = some s

/-- Spec-level: a run of at least `w` through `p` along one of the four
checked axes. -/
def hasRun (bd : Board) (s : Stone) (p : Position) (w : Nat) : Prop :=
  hasRunDir bd s p 0 1 w ∨ hasRunDir bd s p 1 0 w ∨
    hasRunDir bd s p 1 1 w ∨ hasRunDir bd s p 1 (-1) w

lemma offset_bound {n : Nat} {dr dc : Int} (haxis : axisOK dr dc)
    {r c t : Int} (h0 : inB n r c) (ht : inB n (r + t * dr) (c + t * dc))
    (_htpos : 0 ≤ t) : t < (n : Int) := by
  obtain ⟨hdr, hdc, hnz⟩ := haxis
  obtain ⟨h0r, hrn, h0c, hcn⟩ := h0
  obtain ⟨h0r', hrn', h0c', hcn'⟩ := ht
  rcases hdr with h | h | h <;> rcases hdc with h' | h' | h' <;>
    subst h <;> subst h' <;>
    simp only [mul_one, mul_neg_one, mul_zero, add_zero] at hrn' h0r' hcn' h0c' <;>
    omega

/-- The count test of the inner loops agrees with the spec-level run
predicate: some window of length `w` through `p` exists on axis `(dr, dc)`
iff `1 +` the two directional walk counts reaches `w`. -/
lemma run_iff_counts {n : Nat} {bd : Board} (hwf : BWF n bd) {s : Stone}
    {p : Position} {dr dc : Int} (haxis : axisOK dr dc)
    (hp : getCell bd p.row p.col = some s) (w : Nat) :
    (w ≤ 1 + walkCount n bd s dr dc (p.row + dr) (p.col + dc) (n + 1)
        + walkCount n bd s (-dr) (-dc) (p.row - dr) (p.col - dc) (n + 1))
      ↔ hasRunDir bd s p dr dc w := by
  have hpin : inB n p.row p.col := getCell_some_inB hwf hp
  constructor
  · intro h
    refine ⟨-(walkCount n bd s (-dr) (-dc) (p.row - dr) (p.col - dc) (n + 1)),
      walkCount n bd s dr dc (p.row + dr) (p.col + dc) (n + 1),
      by omega, by omega, by omega, ?_⟩
    intro i hlo hhi
    rcases lt_trichotomy i 0 with hneg | hzero | hpos
    · have hj : (-i - 1).toNat <
          walkCount n bd s (-dr) (-dc) (p.row - dr) (p.col - dc) (n + 1) := by
        omega
      have hcell := (@walkCount_cells n bd s (-dr) (-dc)
        (p.row - dr) (p.col - dc) (n + 1) (-i - 1).toNat hj).2
      have e1 : p.row - dr + (↑(-i - 1).toNat) * -dr = p.row + i * dr := by
        have : ((-i - 1).toNat : Int) = -i - 1 := by omega
        rw [this]; ring
      have e2 : p.col - dc + (↑(-i - 1).toNat) * -dc = p.col + i * dc := by
        have : ((-i - 1).toNat : Int) = -i - 1 := by omega
        rw [this]; ring
      rwa [e1, e2] at hcell
    · subst hzero
      simpa using hp
    · have hj : (i - 1).toNat <
          walkCount n bd s dr dc (p.row + dr) (p.col + dc) (n + 1) := by
        omega
      have hcell := (@walkCount_cells n bd s dr dc
        (p.row + dr) (p.col + dc) (n + 1) (i - 1).toNat hj).2
      have e1 : p.row + dr + (↑(i - 1).toNat) * dr = p.row + i * dr := by
        have : ((i - 1).toNat : Int) = i - 1 := by omega
        rw [this]; ring
      have e2 : p.col + dc + (↑(i - 1).toNat) * dc = p.col + i * dc := by
        have : ((i - 1).toNat : Int) = i - 1 := by omega
        rw [this]; ring
      rwa [e1, e2] at hcell
  · rintro ⟨lo, hi, hlo, hhi, hw, hcells⟩
    have hn1 : 1 ≤ (n : Int) := by
      obtain ⟨h0r, hrn, h0c, hcn⟩ := hpin
      omega
    have hhiB : hi < (n : Int) := by
      rcases eq_or_lt_of_le hhi with hz | hpos
      · omega
      · have hcell := hcells hi (by omega) le_rfl
        exact offset_bound haxis hpin (getCell_some_inB hwf hcell) hhi
    have hloB : -lo < (n : Int) := by
      rcases eq_or_lt_of_le hlo with hz | hneg
      · omega
      · have hcell := hcells lo le_rfl (by omega)
        have e1 : p.row + lo * dr = p.row + (-lo) * -dr := by ring
        have e2 : p.col + lo * dc = p.col + (-lo) * -dc := by ring
        rw [e1, e2] at hcell
        have haxis' : axisOK (-dr) (-dc) := by
          obtain ⟨hdr, hdc, hnz⟩ := haxis
          refine ⟨by omega, by omega, by omega⟩
        exact offset_bound haxis' hpin (getCell_some_inB hwf hcell) (by omega)
    have hk1 : hi.toNat ≤
        walkCount n bd s dr dc (p.row + dr) (p.col + dc) (n + 1) := by
      refine walkCount_ge hi.toNat (by omega) fun i hi' => ?_
      have hcell := hcells (↑i + 1) (by omega) (by omega)
      have e1 : p.row + (↑i + 1) * dr = p.row + dr + ↑i * dr := by ring
      have e2 : p.col + (↑i + 1) * dc = p.col + dc + ↑i * dc := by ring
      rw [e1, e2] at hcell
      exact ⟨getCell_some_inB hwf hcell, hcell⟩
    have hk2 : (-lo).toNat ≤
        walkCount n bd s (-dr) (-dc) (p.row - dr) (p.col - dc) (n + 1) := by
      refine walkCount_ge (-lo).toNat (by omega) fun i hi' => ?_
      have hcell := hcells (-(↑i + 1)) (by omega) (by omega)
      have e1 : p.row + (-(↑i + 1)) * dr = p.row - dr + ↑i * -dr := by ring
      have e2 : p.col + (-(↑i + 1)) * dc = p.col - dc + ↑i * -dc := by ring
      rw [e1, e2] at hcell
      exact ⟨getCell_some_inB hwf hcell, hcell⟩
    omega

lemma walkPositions_eq (n : Nat) (bd : Board) (s : Stone) (dr dc : Int)
    (r c : Int) (fuel : Nat) :
    walkPositions n bd s dr dc r c fuel =
      (List.range (walkCount n bd s dr dc r c fuel)).map
        (fun i : Nat => (⟨r + (i : Int) * dr, c + (i : Int) * dc⟩ : Position)) := by
  induction fuel generalizing r c with
  | zero => rfl
  | succ fuel ih =>
    rw [walkPositions, walkCount]
    split
    · rw [@ih (r + dr) (c + dc), List.range_succ_eq_map]
      simp only [List.map_cons, List.map_map]
      refine congrArg₂ _ (by simp) ?_
      refine List.map_congr_left fun i hi => ?_
      simp only [Function.comp_apply, Position.mk.injEq]
      refine ⟨?_, ?_⟩ <;> push_cast <;> ring
    · rfl

lemma axisCheck_isSome_iff {n w : Nat} {bd : Board} (hwf : BWF n bd)
    {p : Position} {s : Stone} {dr dc : Int} (haxis : axisOK dr dc)
    (hp : getCell bd p.row p.col = some s) :
    (axisCheck n w bd p s dr dc).isSome ↔ hasRunDir bd s p dr dc w := by
  unfold axisCheck
  simp only [List.length_cons, List.length_append, walkPositions_length]
  rw [← run_iff_counts hwf haxis hp w]
  split
  · rename_i hle
    exact iff_of_true rfl (by omega)
  · rename_i hlt
    exact iff_of_false (by simp) (by omega)

lemma axisCheck_none_iff {n w : Nat} {bd : Board} (hwf : BWF n bd)
    {p : Position} {s : Stone} {dr dc : Int} (haxis : axisOK dr dc)
    (hp : getCell bd p.row p.col = some s) :
    axisCheck n w bd p s dr dc = none ↔ ¬ hasRunDir bd s p dr dc w := by
  rw [← axisCheck_isSome_iff hwf haxis hp]
  rcases h : axisCheck n w bd p s dr dc <;> simp [h]

/-- When an axis qualifies, the recorded positions list contains `p`, holds
only cells of the owner, and is exactly the contiguous window of offsets
`[-k2, k1]` along the axis. -/
lemma axisCheck_some_props {n w : Nat} {bd : Board} {p : Position} {s : Stone}
    {dr dc : Int} {L : List Position}
    (h : axisCheck n w bd p s dr dc = some L)
    (hp : getCell bd p.row p.col = some s) :
    w ≤ L.length ∧ p ∈ L ∧
      (∀ q ∈ L, getCell bd q.row q.col = some s) ∧
      ∃ lo hi : Int, lo ≤ 0 ∧ 0 ≤ hi ∧
        (∀ q ∈ L, ∃ i : Int, lo ≤ i ∧ i ≤ hi ∧
          q = ⟨p.row + i * dr, p.col + i * dc⟩) ∧
        ∀ i : Int, lo ≤ i → i ≤ hi →
          (⟨p.row + i * dr, p.col + i * dc⟩ : Position) ∈ L := by
  have hcells1 : ∀ i : Nat,
      i < walkCount n bd s dr dc (p.row + dr) (p.col + dc) (n + 1) →
      getCell bd (p.row + dr + i * dr) (p.col + dc + i * dc) = some s :=
    fun i hi => (@walkCount_cells n bd s dr dc
      (p.row + dr) (p.col + dc) (n + 1) i hi).2
  have hcells2 : ∀ i : Nat,
      i < walkCount n bd s (-dr) (-dc) (p.row - dr) (p.col - dc) (n + 1) →
      getCell bd (p.row - dr + i * -dr) (p.col - dc + i * -dc) = some s :=
    fun i hi => (@walkCount_cells n bd s (-dr) (-dc)
      (p.row - dr) (p.col - dc) (n + 1) i hi).2
  simp only [axisCheck] at h
  rw [walkPositions_eq, walkPositions_eq] at h
  set k1 := walkCount n bd s dr dc (p.row + dr) (p.col + dc) (n + 1) with hk1
  set k2 := walkCount n bd s (-dr) (-dc) (p.row - dr) (p.col - dc) (n + 1)
    with hk2
  split at h
  · rename_i hle
    injection h with hL
    subst hL
    refine ⟨by simpa using hle, List.mem_cons_self _ _, ?_,
      -(k2 : Int), (k1 : Int), by omega, by omega, ?_, ?_⟩
    · intro q hq
      simp only [List.mem_cons, List.mem_append, List.mem_map,
        List.mem_range] at hq
      rcases hq with rfl | ⟨i, hi, rfl⟩ | ⟨i, hi, rfl⟩
      · simpa using hp
      · simpa using hcells1 i hi
      · simpa using hcells2 i hi
    · intro q hq
      simp only [List.mem_cons, List.mem_append, List.mem_map,
        List.mem_range] at hq
      rcases hq with rfl | ⟨i, hi, rfl⟩ | ⟨i, hi, rfl⟩
      · exact ⟨0, by omega, by omega, by simp⟩
      · refine ⟨(i : Int) + 1, by omega, by omega, ?_⟩
        simp only [Position.mk.injEq]
        refine ⟨by ring, by ring⟩
      · refine ⟨-((i : Int) + 1), by omega, by omega, ?_⟩
        simp only [Position.mk.injEq]
        refine ⟨by ring, by ring⟩
    · intro i hlo hhi
      simp only [List.mem_cons, List.mem_append, List.mem_map,
        List.mem_range]
      rcases lt_trichotomy i 0 with hneg | hzero | hpos
      · refine Or.inr (Or.inr ⟨(-i - 1).toNat, by omega, ?_⟩)
        simp only [Position.mk.injEq]
        have hcast : (((-i - 1).toNat : Int)) = -i - 1 := by omega
        rw [hcast]
        refine ⟨by ring, by ring⟩
      · subst hzero
        exact Or.inl (by simp)
      · refine Or.inr (Or.inl ⟨(i - 1).toNat, by omega, ?_⟩)
        simp only [Position.mk.injEq]
        have hcast : (((i - 1).toNat : Int)) = i - 1 := by omega
        rw [hcast]
        refine ⟨by ring, by ring⟩
  · exact absurd h (by simp)

instance (dr dc : Int) : Decidable (axisOK dr dc) := by
  unfold axisOK
  infer_instance

lemma checkWin_cases {g : Game} {p : Position} {s : Stone}
    (hp : getCell g.board p.row p.col = some s) :
    g.checkWin p =
      (match axisCheck g.config.boardSize g.config.winCount g.board p s 0 1 with
       | some ps => some ps
       | none =>
         match axisCheck g.config.boardSize g.config.winCount g.board p s 1 0 with
         | some ps => some ps
         | none =>
           match axisCheck g.config.boardSize g.config.winCount g.board p s 1 1 with
           | some ps => some ps
           | none =>
             axisCheck g.config.boardSize g.config.winCount g.board p s 1 (-1)) := by
  simp only [Game.checkWin]
  rw [hp]

lemma checkWin_isSome_iff {g : Game} {p : Position} {s : Stone}
    (hwf : BWF g.config.boardSize g.board)
    (hp : getCell g.board p.row p.col = some s) :
    (g.checkWin p).isSome ↔ hasRun g.board s p g.config.winCount := by
  have i1 := @axisCheck_isSome_iff g.config.boardSize g.config.winCount
    g.board hwf p s 0 1 (by decide) hp
  have i2 := @axisCheck_isSome_iff g.config.boardSize g.config.winCount
    g.board hwf p s 1 0 (by decide) hp
  have i3 := @axisCheck_isSome_iff g.config.boardSize g.config.winCount
    g.board hwf p s 1 1 (by decide) hp
  have i4 := @axisCheck_isSome_iff g.config.boardSize g.config.winCount
    g.board hwf p s 1 (-1) (by decide) hp
  rw [checkWin_cases hp]
  unfold hasRun
  rcases h1 : axisCheck g.config.boardSize g.config.winCount g.board p s 0 1
    with _ | ps1
  case some =>
    rw [h1] at i1
    exact iff_of_true rfl (Or.inl (i1.1 rfl))
  rw [h1] at i1
  have n1 : ¬ hasRunDir g.board s p 0 1 g.config.winCount := fun hr => by
    simpa using i1.2 hr
  rcases h2 : axisCheck g.config.boardSize g.config.winCount g.board p s 1 0
    with _ | ps2
  case some =>
    rw [h2] at i2
    exact iff_of_true rfl (Or.inr (Or.inl (i2.1 rfl)))
  rw [h2] at i2
  have n2 : ¬ hasRunDir g.board s p 1 0 g.config.winCount := fun hr => by
    simpa using i2.2 hr
  rcases h3 : axisCheck g.config.boardSize g.config.winCount g.board p s 1 1
    with _ | ps3
  case some =>
    rw [h3] at i3
    exact iff_of_true rfl (Or.inr (Or.inr (Or.inl (i3.1 rfl))))
  rw [h3] at i3
  have n3 : ¬ hasRunDir g.board s p 1 1 g.config.winCount := fun hr => by
    simpa using i3.2 hr
  rcases h4 : axisCheck g.config.boardSize g.config.winCount g.board p s 1 (-1)
    with _ | ps4
  case some =>
    rw [h4] at i4
    exact iff_of_true rfl (Or.inr (Or.inr (Or.inr (i4.1 rfl))))
  rw [h4] at i4
  have n4 : ¬ hasRunDir g.board s p 1 (-1) g.config.winCount := fun hr => by
    simpa using i4.2 hr
  exact iff_of_false (by simp) (by tauto)

lemma checkWin_none_iff {g : Game} {p : Position} {s : Stone}
    (hwf : BWF g.config.boardSize g.board)
    (hp : getCell g.board p.row p.col = some s) :
    g.checkWin p = none ↔ ¬ hasRun g.board s p g.config.winCount := by
  rw [← checkWin_isSome_iff hwf hp]
  rcases h : g.checkWin p <;> simp [h]

lemma checkWin_some_props {g : Game} {p : Position} {s : Stone}
    (hp : getCell g.board p.row p.col = some s) {L : List Position}
    (h : g.checkWin p = some L) :
    g.config.winCount ≤ L.length ∧ p ∈ L ∧
      (∀ q ∈ L, getCell g.board q.row q.col = some s) ∧
      ∃ d ∈ axisDirs, ∃ lo hi : Int, lo ≤ 0 ∧ 0 ≤ hi ∧
        (∀ q ∈ L, ∃ i : Int, lo ≤ i ∧ i ≤ hi ∧
          q = ⟨p.row + i * d.1, p.col + i * d.2⟩) ∧
        ∀ i : Int, lo ≤ i → i ≤ hi →
          (⟨p.row + i * d.1, p.col + i * d.2⟩ : Position) ∈ L := by
  rw [checkWin_cases hp] at h
  rcases h1 : axisCheck g.config.boardSize g.config.winCount g.board p s 0 1
    with _ | ps1
  case some =>
    rw [h1] at h
    injection h with h
    subst h
    obtain ⟨ha, hb, hc, lo, hi, hd⟩ := axisCheck_some_props h1 hp
    exact ⟨ha, hb, hc, (0, 1), by decide, lo, hi, hd⟩
  rw [h1] at h
  rcases h2 : axisCheck g.config.boardSize g.config.winCount g.board p s 1 0
    with _ | ps2
  case some =>
    rw [h2] at h
    injection h with h
    subst h
    obtain ⟨ha, hb, hc, lo, hi, hd⟩ := axisCheck_some_props h2 hp
    exact ⟨ha, hb, hc, (1, 0), by decide, lo, hi, hd⟩
  rw [h2] at h
  rcases h3 : axisCheck g.config.boardSize g.config.winCount g.board p s 1 1
    with _ | ps3
  case some =>
    rw [h3] at h
    injection h with h
    subst h
    obtain ⟨ha, hb, hc, lo, hi, hd⟩ := axisCheck_some_props h3 hp
    exact ⟨ha, hb, hc, (1, 1), by decide, lo, hi, hd⟩
  rw [h3] at h
  obtain ⟨ha, hb, hc, lo, hi, hd⟩ := axisCheck_some_props h hp
  exact ⟨ha, hb, hc, (1, -1), by decide, lo, hi, hd⟩

/-! ## placeStone unfolding on the legal path -/

lemma placeStone_legal {g : Game} {p : Position} {ts : Nat}
    (hv : g.isValidPosition p) (he : getCell g.board p.row p.col = none)
    (hst : g.gameStatus = .playing) :
    g.placeStone p ts =
      (match (g.placed p ts).checkWin p with
       | some ps =>
         (true, { g.placed p ts with
           gameStatus :=
             if g.currentPlayer = .black then .blackWin else .whiteWin
           winningPositions := some ps })
       | none =>
         if (g.placed p ts).isDraw then
           (true, { g.placed p ts with gameStatus := .draw })
         else
           (true, { g.placed p ts with
             currentPlayer := g.currentPlayer.other })) := by
  unfold Game.placeStone
  rw [if_neg (by simpa using hv), if_neg (by simp [he]),
    if_neg (by simp [hst])]

lemma placeStone_reject (g : Game) (p : Position) (ts : Nat)
    (h : ¬ g.isValidPosition p ∨ getCell g.board p.row p.col ≠ none ∨
      g.gameStatus ≠ .playing) :
    g.placeStone p ts = (false, g) := by
  unfold Game.placeStone
  split
  · rfl
  split
  · rfl
  split
  · rfl
  · rename_i h1 h2 h3
    rcases h with h | h | h
    · exact absurd (by simpa using h1) h
    · exact absurd h h2
    · exact absurd h h3

/-- C2 — an illegal `place` call (out of bounds, occupied, or not Playing)
returns `false` and leaves the whole state — board, log, status, player,
last move, winning line, counters — unchanged. -/
theorem c2_illegal_place_rejected (g : Game) (p : Position) (ts : Nat)
    (h : ¬ g.isValidPosition p ∨ getCell g.board p.row p.col ≠ none ∨
      g.gameStatus ≠ .playing) :
    g.placeStone p ts = (false, g) :=
  placeStone_reject g p ts h

theorem c2_illegal_place_rejected_witness :
    (¬ (Game.new defaultConfig).isValidPosition ⟨-1, 0⟩ ∨
      getCell (Game.new defaultConfig).board (-1) 0 ≠ none ∨
      (Game.new defaultConfig).gameStatus ≠ .playing) ∧
    (Game.new defaultConfig).placeStone ⟨-1, 0⟩ 0 =
      (false, Game.new defaultConfig) :=
  ⟨Or.inl (by decide),
    c2_illegal_place_rejected (Game.new defaultConfig) ⟨-1, 0⟩ 0
      (Or.inl (by decide))⟩

/-- The C9 scenario Config: `boardSize = 2`, `winCount = 5`
(winCount > boardSize). -/
def badConfig : GameConfig :=
  { boardSize := 2, winCount := 5, gameMode := .pvp
    difficulty := some .easy, timeLimit := none }

/-- C9 counterexample — the constructor performs no validation: the Config
`boardSize = 2, winCount = 5` (winCount > boardSize) is accepted and stored
unchanged, and the game starts Playing; nothing is rejected or clamped. -/
theorem c9_counterexample :
    (Game.new badConfig).config = badConfig ∧
    (Game.new badConfig).config.winCount >
      (Game.new badConfig).config.boardSize ∧
    (Game.new badConfig).gameStatus = .playing :=
  ⟨rfl, by decide, rfl⟩

/-- C9 amended — the constructor deterministically accepts every Config
unchanged (no rejection and no clamping, even when winCount > boardSize),
builds the `boardSize × boardSize` empty board and starts Playing. -/
theorem c9_constructor_no_validation (cfg : GameConfig) :
    (Game.new cfg).config = cfg ∧
    (Game.new cfg).gameStatus = .playing ∧
    (Game.new cfg).board.length = cfg.boardSize ∧
    (Game.new cfg).history = [] :=
  ⟨rfl, rfl, by simp [Game.new], rfl⟩

/-! ## C6 — the hard tier agrees with the normal tier -/

lemma head?_filter_eq_find? {α : Type _} (p : α → Bool) (l : List α) :
    (l.filter p).head? = l.find? p := by
  induction l with
  | nil => rfl
  | cons x xs ih =>
    by_cases h : p x <;>
      simp [List.filter_cons, List.find?_cons, h, ih]

/-- C6 — on any nonempty candidate list the hard tier returns exactly the
normal tier's move: the first winning move if one exists, else the first
blocking move, else the scored fallback. -/
theorem c6_hard_eq_normal (ai : Stone) (w : Nat) (bd : Board)
    (es : List Position) (hne : es ≠ []) :
    ∃ q, getHardMove ai w bd es = some q ∧
      getNormalMove ai w bd es = some q := by
  unfold getHardMove getNormalMove findWinningMoves findBlockingMoves
  rw [← head?_filter_eq_find?
    (fun pos => checkWinAt (boardPlace bd pos ai) pos ai w) es]
  rw [← head?_filter_eq_find?
    (fun pos => checkWinAt (boardPlace bd pos ai.other) pos ai.other w) es]
  rcases hf1 : es.filter
      (fun pos => checkWinAt (boardPlace bd pos ai) pos ai w) with _ | ⟨q1, r1⟩
  · rcases hf2 : es.filter
        (fun pos => checkWinAt (boardPlace bd pos ai.other) pos ai.other w)
      with _ | ⟨q2, r2⟩
    · rcases es with _ | ⟨p0, rest⟩
      · exact absurd rfl hne
      · exact ⟨_, rfl, rfl⟩
    · exact ⟨q2, rfl, rfl⟩
  · exact ⟨q1, rfl, rfl⟩

theorem c6_hard_eq_normal_witness :
    ([(⟨0, 0⟩ : Position)] ≠ []) ∧
    ∃ q, getHardMove .white 5 [[none, none], [none, none]] [⟨0, 0⟩] = some q ∧
      getNormalMove .white 5 [[none, none], [none, none]] [⟨0, 0⟩] = some q :=
  ⟨by decide,
    c6_hard_eq_normal .white 5 [[none, none], [none, none]] [⟨0, 0⟩]
      (by decide)⟩


/-! ## C7 — evaluatePosition equals the per-axis table sum -/

/-- Spec-level (C7): axis run length = 1 plus the consecutive cells matching
`s` walking outward from `p` in both directions (`p` itself not required to
hold `s`). -/
def runLength (bd : Board) (p : Position) (s : Stone) (dr dc : Int) : Nat :=
  1 + walkCount bd.length bd s dr dc (p.row + dr) (p.col + dc) (bd.length + 1)
    + walkCount bd.length bd s (-dr) (-dc) (p.row - dr) (p.col - dc)
        (bd.length + 1)

/-- Spec-level (C7): the number of open ends of the axis (0, 1 or 2) — the
cells immediately beyond the two matching runs, at offsets `1 + run` from `p`
in each direction, that are in bounds and empty. -/
def openEnds (bd : Board) (p : Position) (s : Stone) (dr dc : Int) : Nat :=
  openEndFlag bd.length bd
    (p.row + (1 + (walkCount bd.length bd s dr dc (p.row + dr) (p.col + dc)
      (bd.length + 1) : Int)) * dr)
    (p.col + (1 + (walkCount bd.length bd s dr dc (p.row + dr) (p.col + dc)
      (bd.length + 1) : Int)) * dc) +
  openEndFlag bd.length bd
    (p.row - (1 + (walkCount bd.length bd s (-dr) (-dc) (p.row - dr)
      (p.col - dc) (bd.length + 1) : Int)) * dr)
    (p.col - (1 + (walkCount bd.length bd s (-dr) (-dc) (p.row - dr)
      (p.col - dc) (bd.length + 1) : Int)) * dc)

/-- The score table exactly as the spec tabulates it: run ≥ 5 scores 100000
regardless of open ends; 4 with 2/1/0 open ends scores 10000/1000/0; 3 with
2/1 scores 500/100; 2 with 2/1 scores 50/10; anything else 0. -/
def tableValue (run oe : Nat) : Int :=
  if 5 ≤ run then 100000
  else if run = 4 ∧ oe = 2 then 10000
  else if run = 4 ∧ oe = 1 then 1000
  else if run = 3 ∧ oe = 2 then 500
  else if run = 3 ∧ oe = 1 then 100
  else if run = 2 ∧ oe = 2 then 50
  else if run = 2 ∧ oe = 1 then 10
  else 0

set_option maxHeartbeats 1000000 in
lemma scoreChain_eq_tableValue (cnt oe : Nat) :
    scoreChain cnt oe = tableValue cnt oe := by
  unfold scoreChain tableValue
  split_ifs <;> omega

lemma dirEval_eq_tableValue (bd : Board) (p : Position) (s : Stone)
    (dr dc : Int) :
    dirEval bd.length bd p s dr dc =
      tableValue (runLength bd p s dr dc) (openEnds bd p s dr dc) := by
  unfold dirEval
  rw [scoreChain_eq_tableValue]
  have hsnd1 := walkEnd_snd bd.length bd s dr dc (p.row + dr) (p.col + dc)
    (bd.length + 1)
  have hsnd2 := walkEnd_snd bd.length bd s (-dr) (-dc) (p.row - dr)
    (p.col - dc) (bd.length + 1)
  congr 1
  · rw [walkEnd_fst, walkEnd_fst]
    rfl
  · rw [hsnd1, hsnd2]
    unfold openEnds
    congr 1
    · congr 1 <;> ring
    · congr 1 <;> ring

/-- C7 — `evaluatePosition(board, p, stone)` equals the sum over the four
axes of the table value of the axis's run length (1 + outward matches in both
directions) and open-end count (far-end cells in bounds and empty). -/
theorem c7_evaluate_table (bd : Board) (p : Position) (s : Stone) :
    evaluatePosition bd p s =
      tableValue (runLength bd p s 0 1) (openEnds bd p s 0 1) +
      tableValue (runLength bd p s 1 0) (openEnds bd p s 1 0) +
      tableValue (runLength bd p s 1 1) (openEnds bd p s 1 1) +
      tableValue (runLength bd p s 1 (-1)) (openEnds bd p s 1 (-1)) := by
  unfold evaluatePosition
  rw [dirEval_eq_tableValue, dirEval_eq_tableValue, dirEval_eq_tableValue,
    dirEval_eq_tableValue]

/-! ## C10 — the selector's simulated win test agrees with the engine's -/

instance (n : Nat) (bd : Board) : Decidable (BWF n bd) := by
  unfold BWF
  infer_instance

lemma checkWinAt_iff_hasRun {n : Nat} {bd : Board} (hwf : BWF n bd)
    {p : Position} {s : Stone}
    (hp : getCell bd p.row p.col = some s) (w : Nat) :
    (checkWinAt bd p s w = true ↔ hasRun bd s p w) := by
  unfold checkWinAt axisCount
  rw [hwf.1]
  simp only [Bool.or_eq_true, decide_eq_true_eq]
  rw [or_assoc, or_assoc]
  unfold hasRun
  exact or_congr (run_iff_counts hwf (by decide) hp w)
    (or_congr (run_iff_counts hwf (by decide) hp w)
      (or_congr (run_iff_counts hwf (by decide) hp w)
        (run_iff_counts hwf (by decide) hp w)))

/-- C10 — for a board cell that holds `s`, the AI's hypothetical win test
`checkWinAt` returns `true` exactly when the engine's `checkWin` detects a
win at that just-placed position (same connection length `winCount`). -/
theorem c10_checkwinat_agrees (g : Game) (p : Position) (s : Stone)
    (hwf : BWF g.config.boardSize g.board)
    (hp : getCell g.board p.row p.col = some s) :
    (checkWinAt g.board p s g.config.winCount = true ↔
      (g.checkWin p).isSome) := by
  rw [checkWinAt_iff_hasRun hwf hp g.config.winCount,
    checkWin_isSome_iff hwf hp]

/-- A concrete reachable one-stone game used by several witnesses: a 1-by-1
board with `winCount = 1` after Black plays `(0, 0)` (Black wins). -/
def cfg11 : GameConfig :=
  { boardSize := 1, winCount := 1, gameMode := .pvp, difficulty := some .easy, timeLimit := none }

/-- The state after Black's stone lands on the 1-by-1 board. -/
def g11win : Game := ((Game.new cfg11).placeStone ⟨0, 0⟩ 0).2

theorem c10_checkwinat_agrees_witness :
    BWF g11win.config.boardSize g11win.board ∧
    getCell g11win.board 0 0 = some .black ∧
    (checkWinAt g11win.board ⟨0, 0⟩ .black g11win.config.winCount = true ↔
      (g11win.checkWin ⟨0, 0⟩).isSome) :=
  ⟨by decide, by decide,
    c10_checkwinat_agrees g11win ⟨0, 0⟩ .black (by decide) (by decide)⟩

/-! ## Rejection and legal-path helpers for placeStone and undo -/

lemma undo_reject (g : Game)
    (h : g.history = [] ∨ g.gameStatus ≠ .playing) :
    g.undo = (false, g) := by
  unfold Game.undo
  split
  · rfl
  split
  · rfl
  · rename_i h1 h2
    rcases h with h | h
    · exact absurd (by simp [h]) h1
    · exact absurd h h2

lemma undo_legal {g : Game} (hne : g.history ≠ [])
    (hst : g.gameStatus = .playing) {item : HistoryItem}
    (hl : g.history.getLast? = some item) :
    g.undo =
      (true,
        { g with
          history := g.history.dropLast
          board := setCell g.board item.position.row item.position.col none
          blackMoveCount :=
            if item.stone = .black then g.blackMoveCount - 1
            else g.blackMoveCount
          whiteMoveCount :=
            if item.stone = .white then g.whiteMoveCount - 1
            else g.whiteMoveCount
          lastMove :=
            match g.history.dropLast.getLast? with
            | some prev => some prev.position
            | none => none
          currentPlayer :=
            match g.history.dropLast.getLast? with
            | some _ => item.stone
            | none => .black }) := by
  unfold Game.undo
  rw [if_neg (by simpa using hne), if_neg (by simp [hst]), hl]
  dsimp only
  rcases hdl : g.history.dropLast.getLast? with _ | prev <;> rfl

/-! ## Reachable states and their invariants -/

/-- Invariants of every state reachable through the engine API. -/
structure GInv (g : Game) : Prop where
  wf : BWF g.config.boardSize g.board
  cells : ∀ it ∈ g.history,
    inB g.config.boardSize it.position.row it.position.col ∧
      getCell g.board it.position.row it.position.col = some it.stone
  nodup : (g.history.map fun it => it.position).Nodup
  count : countStones g.board = g.history.length
  lastSome : ∀ it, g.history.getLast? = some it →
    g.lastMove = some it.position
  lastNone : g.history.getLast? = none →
    g.lastMove = none ∧ g.currentPlayer = .black
  stones : ∀ i it, g.history[i]? = some it →
    it.stone = (if i % 2 = 0 then Stone.black else Stone.white)
  turn : g.gameStatus = .playing →
    g.currentPlayer =
      (if g.history.length % 2 = 0 then Stone.black else Stone.white)
  winline : g.gameStatus = .playing → g.winningPositions = none

/-- States reachable from a fresh constructor call through `placeStone` and
`undo`.  (`setStatus` is used by the caller only to toggle
`Playing ↔ Paused` on an otherwise unchanged state, so it adds no states
with `gameStatus = playing` beyond these.) -/
inductive Reachable : Game → Prop
  | init (cfg : GameConfig) : Reachable (Game.new cfg)
  | place {g : Game} (p : Position) (ts : Nat) :
      Reachable g → Reachable (g.placeStone p ts).2
  | undoStep {g : Game} : Reachable g → Reachable g.undo.2

lemma countStones_new (n : Nat) :
    countStones (List.replicate n (List.replicate n (none : Option Stone)))
      = 0 := by
  unfold countStones
  rw [List.map_replicate]
  simp [List.countP_eq_zero]

lemma GInv_new (cfg : GameConfig) : GInv (Game.new cfg) := by
  refine ⟨BWF_new _, ?_, ?_, ?_, ?_, ?_, ?_, ?_, ?_⟩
  · intro it hit
    simp [Game.new] at hit
  · simp [Game.new]
  · simpa [Game.new] using countStones_new cfg.boardSize
  · intro it hit
    simp [Game.new] at hit
  · intro _
    exact ⟨rfl, rfl⟩
  · intro i it hit
    simp [Game.new] at hit
  · intro _
    rfl
  · intro _
    rfl

lemma GInv_place {g : Game} (hinv : GInv g) (p : Position) (ts : Nat) :
    GInv (g.placeStone p ts).2 := by
  by_cases hv : g.isValidPosition p
  case neg =>
    rw [placeStone_reject g p ts (Or.inl hv)]
    exact hinv
  by_cases he : getCell g.board p.row p.col = none
  case neg =>
    rw [placeStone_reject g p ts (Or.inr (Or.inl he))]
    exact hinv
  by_cases hst : g.gameStatus = .playing
  case neg =>
    rw [placeStone_reject g p ts (Or.inr (Or.inr hst))]
    exact hinv
  have hplayer := hinv.turn hst
  have hwf1 : BWF g.config.boardSize
      (setCell g.board p.row p.col (some g.currentPlayer)) :=
    BWF_setCell hinv.wf _ _ _
  have hcellp : getCell (setCell g.board p.row p.col (some g.currentPlayer))
      p.row p.col = some g.currentPlayer :=
    getCell_setCell_self hinv.wf hv _
  have hpos_ne : ∀ it ∈ g.history,
      it.position.row ≠ p.row ∨ it.position.col ≠ p.col := by
    intro it hit
    by_contra hcon
    push_neg at hcon
    have hc := (hinv.cells it hit).2
    rw [hcon.1, hcon.2, he] at hc
    exact Option.noConfusion hc
  have hcells1 : ∀ it ∈ g.history ++
      [({ position := p, stone := g.currentPlayer
          moveNumber := g.history.length + 1, timestamp := ts } : HistoryItem)],
      inB g.config.boardSize it.position.row it.position.col ∧
        getCell (setCell g.board p.row p.col (some g.currentPlayer))
          it.position.row it.position.col = some it.stone := by
    intro it hit
    rcases List.mem_append.1 hit with h | h
    · obtain ⟨hin, hc⟩ := hinv.cells it h
      refine ⟨hin, ?_⟩
      rw [getCell_setCell_ne hinv.wf hv _ (hpos_ne it h)]
      exact hc
    · simp only [List.mem_singleton] at h
      subst h
      exact ⟨hv, hcellp⟩
  have hnodup1 : ((g.history ++
      [({ position := p, stone := g.currentPlayer
          moveNumber := g.history.length + 1, timestamp := ts } : HistoryItem)]).map
        fun it => it.position).Nodup := by
    rw [List.map_append]
    rw [List.nodup_append]
    refine ⟨hinv.nodup, by simp, ?_⟩
    intro q hq hq2
    simp only [List.map_cons, List.map_nil, List.mem_singleton] at hq2
    subst hq2
    obtain ⟨it, hit, hp'⟩ := List.mem_map.1 hq
    rcases hpos_ne it hit with h | h <;> rw [hp'] at h <;> exact h rfl
  have hcount1 : countStones
      (setCell g.board p.row p.col (some g.currentPlayer)) =
        g.history.length + 1 := by
    have hc := countStones_setCell hinv.wf hv (some g.currentPlayer)
    rw [he] at hc
    simp only [Option.isSome_none, Option.isSome_some, if_neg, if_pos,
      Bool.false_eq_true, if_false, if_true] at hc
    have hcnt := hinv.count
    omega
  have hstones1 : ∀ i it, (g.history ++
      [({ position := p, stone := g.currentPlayer
          moveNumber := g.history.length + 1, timestamp := ts } : HistoryItem)])[i]?
        = some it →
      it.stone = (if i % 2 = 0 then Stone.black else Stone.white) := by
    intro i it hit
    by_cases hi : i < g.history.length
    · rw [List.getElem?_append, if_pos hi] at hit
      exact hinv.stones i it hit
    · rw [List.getElem?_append, if_neg hi] at hit
      rcases hj : i - g.history.length with _ | j
      · rw [hj] at hit
        simp only [List.getElem?_cons_zero, Option.some.injEq] at hit
        subst hit
        have : i = g.history.length := by omega
        subst this
        simpa using hplayer
      · rw [hj] at hit
        simp at hit
  rw [placeStone_legal hv he hst]
  rcases hcw : (g.placed p ts).checkWin p with _ | ps
  · by_cases hdraw : (g.placed p ts).isDraw = true
    · rw [if_pos hdraw]
      refine ⟨hwf1, hcells1, hnodup1, ?_, ?_, ?_, hstones1, ?_, ?_⟩
      · simpa [Game.placed] using hcount1
      · intro it hit
        simp only [Game.placed] at hit ⊢
        rw [List.getLast?_concat] at hit
        injection hit with hit
        subst hit
        rfl
      · intro hlast
        simp only [Game.placed] at hlast
        rw [List.getLast?_concat] at hlast
        exact Option.noConfusion hlast
      · intro habs
        simp at habs
      · intro habs
        simp at habs
    · rw [if_neg hdraw]
      refine ⟨hwf1, hcells1, hnodup1, ?_, ?_, ?_, hstones1, ?_, ?_⟩
      · simpa [Game.placed] using hcount1
      · intro it hit
        simp only [Game.placed] at hit ⊢
        rw [List.getLast?_concat] at hit
        injection hit with hit
        subst hit
        rfl
      · intro hlast
        simp only [Game.placed] at hlast
        rw [List.getLast?_concat] at hlast
        exact Option.noConfusion hlast
      · intro _
        show g.currentPlayer.other = _
        simp only [Game.placed, List.length_append, List.length_cons,
          List.length_nil]
        by_cases hpar : g.history.length % 2 = 0
        · rw [hplayer, if_pos hpar]
          have hmod : (g.history.length + 0 + 1) % 2 = 1 := by omega
          rw [hmod]
          simp [Stone.other]
        · rw [hplayer, if_neg hpar]
          have hmod : (g.history.length + 0 + 1) % 2 = 0 := by omega
          rw [hmod]
          simp [Stone.other]
      · intro _
        show (g.placed p ts).winningPositions = none
        simp only [Game.placed]
        exact hinv.winline hst
  · refine ⟨hwf1, hcells1, hnodup1, ?_, ?_, ?_, hstones1, ?_, ?_⟩
    · simpa [Game.placed] using hcount1
    · intro it hit
      simp only [Game.placed] at hit ⊢
      rw [List.getLast?_concat] at hit
      injection hit with hit
      subst hit
      rfl
    · intro hlast
      simp only [Game.placed] at hlast
      rw [List.getLast?_concat] at hlast
      exact Option.noConfusion hlast
    · intro habs
      by_cases hb : g.currentPlayer = .black <;> simp [hb] at habs
    · intro habs
      by_cases hb : g.currentPlayer = .black <;> simp [hb] at habs

lemma GInv_undo {g : Game} (hinv : GInv g) : GInv g.undo.2 := by
  by_cases hne : g.history = []
  case pos =>
    rw [undo_reject g (Or.inl hne)]
    exact hinv
  by_cases hst : g.gameStatus = .playing
  case neg =>
    rw [undo_reject g (Or.inr hst)]
    exact hinv
  obtain ⟨item, hl⟩ : ∃ item, g.history.getLast? = some item := by
    rcases hx : g.history.getLast? with _ | item
    · rw [List.getLast?_eq_none_iff] at hx
      exact absurd hx hne
    · exact ⟨item, rfl⟩
  have hdecomp : g.history.dropLast ++ [item] = g.history := by
    have h1 := List.dropLast_concat_getLast hne
    rw [List.getLast?_eq_getLast _ hne] at hl
    injection hl with hl
    rw [hl] at h1
    exact h1
  have hitem_mem : item ∈ g.history := by
    rw [← hdecomp]
    simp
  obtain ⟨hitem_in, hitem_cell⟩ := hinv.cells item hitem_mem
  have hpos_ne : ∀ it ∈ g.history.dropLast,
      it.position.row ≠ item.position.row ∨
        it.position.col ≠ item.position.col := by
    intro it hit
    have hnd := hinv.nodup
    rw [← hdecomp, List.map_append, List.nodup_append] at hnd
    have hdisj := hnd.2.2
    by_contra hcon
    push_neg at hcon
    have hpe : it.position = item.position := by
      obtain ⟨h1, h2⟩ := hcon
      exact Position.ext h1 h2
    exact hdisj (List.mem_map_of_mem _ hit) (by simp [hpe])
  have hwf1 : BWF g.config.boardSize
      (setCell g.board item.position.row item.position.col none) :=
    BWF_setCell hinv.wf _ _ _
  have hcells1 : ∀ it ∈ g.history.dropLast,
      inB g.config.boardSize it.position.row it.position.col ∧
        getCell (setCell g.board item.position.row item.position.col none)
          it.position.row it.position.col = some it.stone := by
    intro it hit
    have hmem : it ∈ g.history := (List.dropLast_sublist g.history).subset hit
    obtain ⟨hin, hc⟩ := hinv.cells it hmem
    refine ⟨hin, ?_⟩
    rw [getCell_setCell_ne hinv.wf hitem_in _ (hpos_ne it hit)]
    exact hc
  have hnodup1 : ((g.history.dropLast.map fun it => it.position)).Nodup :=
    (hinv.nodup.sublist (List.Sublist.map _ (List.dropLast_sublist g.history)))
  have hcount1 : countStones
      (setCell g.board item.position.row item.position.col none) =
        g.history.dropLast.length := by
    have hc := countStones_setCell hinv.wf hitem_in
      (none : Option Stone)
    rw [hitem_cell] at hc
    simp only [Option.isSome_none, Option.isSome_some, Bool.false_eq_true,
      if_false, if_true] at hc
    have hcnt := hinv.count
    have hlen : g.history.dropLast.length = g.history.length - 1 := by
      simp
    have hpos : 0 < g.history.length := List.length_pos.2 hne
    omega
  have hstones1 : ∀ i it, g.history.dropLast[i]? = some it →
      it.stone = (if i % 2 = 0 then Stone.black else Stone.white) := by
    intro i it hit
    have hi : i < g.history.dropLast.length := by
      by_contra hge
      rw [List.getElem?_eq_none (by omega)] at hit
      exact Option.noConfusion hit
    have : g.history[i]? = some it := by
      rw [← hdecomp, List.getElem?_append, if_pos hi]
      exact hit
    exact hinv.stones i it this
  have hstone_item : item.stone =
      (if (g.history.length - 1) % 2 = 0 then Stone.black else Stone.white) := by
    refine hinv.stones (g.history.length - 1) item ?_
    rw [List.getLast?_eq_getElem?] at hl
    exact hl
  rw [undo_legal hne hst hl]
  rcases hdl : g.history.dropLast.getLast? with _ | prev
  · have hdle : g.history.dropLast = [] := List.getLast?_eq_none_iff.1 hdl
    refine ⟨hwf1, hcells1, hnodup1, hcount1, ?_, ?_, hstones1, ?_, ?_⟩
    · intro it hit
      rw [hdl] at hit
      exact Option.noConfusion hit
    · intro _
      exact ⟨rfl, rfl⟩
    · intro _
      simp [hdle]
    · intro _
      exact hinv.winline hst
  · refine ⟨hwf1, hcells1, hnodup1, hcount1, ?_, ?_, hstones1, ?_, ?_⟩
    · intro it hit
      rw [hdl] at hit
      injection hit with hit
      subst hit
      rfl
    · intro habs
      rw [hdl] at habs
      exact Option.noConfusion habs
    · intro _
      show item.stone = _
      rw [hstone_item]
      have hpos : 0 < g.history.length := List.length_pos.2 hne
      have hlen : g.history.dropLast.length = g.history.length - 1 := by
        simp
      rw [hlen]
    · intro _
      exact hinv.winline hst

lemma Reachable.inv {g : Game} (h : Reachable g) : GInv g := by
  induction h with
  | init cfg => exact GInv_new cfg
  | place p ts _ ih => exact GInv_place ih p ts
  | undoStep _ ih => exact GInv_undo ih

/-- C4 — in every state reachable by a sequence of `placeStone` (and `undo`)
calls from a fresh engine, the number of occupied cells equals the move-log
length; and while the game is still Playing — i.e. no successful placement
has ended it — the current player is Black exactly when the log length (= the
number N of placements in effect) is even, White when it is odd. -/
theorem c4_count_parity (g : Game) (hre : Reachable g) :
    countStones g.board = g.history.length ∧
    (g.gameStatus = .playing →
      g.currentPlayer =
        (if g.history.length % 2 = 0 then Stone.black else Stone.white)) :=
  ⟨hre.inv.count, hre.inv.turn⟩

theorem c4_count_parity_witness :
    countStones (Game.new defaultConfig).board =
      (Game.new defaultConfig).history.length ∧
    ((Game.new defaultConfig).gameStatus = .playing →
      (Game.new defaultConfig).currentPlayer =
        (if (Game.new defaultConfig).history.length % 2 = 0 then Stone.black
         else Stone.white)) :=
  c4_count_parity (Game.new defaultConfig) (Reachable.init defaultConfig)

/-! ## C3 — place followed by undo -/

/-- C3 counterexample — on a 1-by-1 board with `winCount = 1` (a legal
Playing start), `placeStone (0,0)` returns `true` but the immediately
following `undo` returns `false` (the placement ended the game and `undo`
rejects any non-Playing state), and the board is NOT restored: the claim
fails for placements that end the game. -/
theorem c3_counterexample :
    ((Game.new cfg11).placeStone ⟨0, 0⟩ 0).1 = true ∧
    (((Game.new cfg11).placeStone ⟨0, 0⟩ 0).2.undo).1 = false ∧
    (((Game.new cfg11).placeStone ⟨0, 0⟩ 0).2.undo).2.board ≠
      (Game.new cfg11).board := by
  refine ⟨by decide, by decide, by decide⟩

/-- C3 amended — for every reachable Playing state, a successful `placeStone`
that leaves the game still Playing (does not end it by win or draw), followed
immediately by `undo`, returns `true` from the `undo` and restores the board,
the move log, the current player and the last move to their exact pre-place
values. -/
theorem c3_place_undo (g : Game) (p : Position) (ts : Nat)
    (hre : Reachable g) (hsucc : (g.placeStone p ts).1 = true)
    (hplay : (g.placeStone p ts).2.gameStatus = .playing) :
    ((g.placeStone p ts).2.undo).1 = true ∧
    ((g.placeStone p ts).2.undo).2.board = g.board ∧
    ((g.placeStone p ts).2.undo).2.history = g.history ∧
    ((g.placeStone p ts).2.undo).2.currentPlayer = g.currentPlayer ∧
    ((g.placeStone p ts).2.undo).2.lastMove = g.lastMove := by
  have hinv := hre.inv
  by_cases hv : g.isValidPosition p
  case neg =>
    rw [placeStone_reject g p ts (Or.inl hv)] at hsucc
    exact absurd hsucc (by simp)
  by_cases he : getCell g.board p.row p.col = none
  case neg =>
    rw [placeStone_reject g p ts (Or.inr (Or.inl he))] at hsucc
    exact absurd hsucc (by simp)
  by_cases hst : g.gameStatus = .playing
  case neg =>
    rw [placeStone_reject g p ts (Or.inr (Or.inr hst))] at hsucc
    exact absurd hsucc (by simp)
  rw [placeStone_legal hv he hst] at hplay ⊢
  rcases hcw : (g.placed p ts).checkWin p with _ | ps
  swap
  · rw [hcw] at hplay
    by_cases hb : g.currentPlayer = .black <;> simp [hb] at hplay
  rw [hcw] at hplay
  by_cases hdraw : (g.placed p ts).isDraw = true
  case pos =>
    rw [if_pos hdraw] at hplay
    simp at hplay
  rw [if_neg hdraw]
  have hlast : ((g.placed p ts).history).getLast? =
      some ({ position := p, stone := g.currentPlayer
              moveNumber := g.history.length + 1, timestamp := ts } :
        HistoryItem) := by
    simp only [Game.placed]
    exact List.getLast?_concat _
  have hne : ({ g.placed p ts with
      currentPlayer := g.currentPlayer.other } : Game).history ≠ [] := by
    simp [Game.placed]
  have hst' : ({ g.placed p ts with
      currentPlayer := g.currentPlayer.other } : Game).gameStatus =
        .playing := by
    simp only [Game.placed]
    exact hst
  rw [undo_legal hne hst' hlast]
  have hdrop : ((g.placed p ts).history).dropLast = g.history := by
    simp only [Game.placed]
    exact List.dropLast_concat
  refine ⟨rfl, ?_, ?_, ?_, ?_⟩
  · show setCell ({ g.placed p ts with
        currentPlayer := g.currentPlayer.other } : Game).board p.row p.col
      none = g.board
    show setCell (setCell g.board p.row p.col (some g.currentPlayer))
      p.row p.col none = g.board
    exact setCell_cancel hinv.wf hv he _
  · exact hdrop
  · show (match (({ g.placed p ts with
        currentPlayer := g.currentPlayer.other } : Game).history).dropLast.getLast?
      with
      | some _ => g.currentPlayer
      | none => Stone.black) = g.currentPlayer
    have : (({ g.placed p ts with
        currentPlayer := g.currentPlayer.other } : Game).history).dropLast =
        g.history := hdrop
    rw [this]
    rcases hg : g.history.getLast? with _ | prev
    · exact ((hinv.lastNone hg).2).symm
    · rfl
  · show (match (({ g.placed p ts with
        currentPlayer := g.currentPlayer.other } : Game).history).dropLast.getLast?
      with
      | some prev => some prev.position
      | none => none) = g.lastMove
    have : (({ g.placed p ts with
        currentPlayer := g.currentPlayer.other } : Game).history).dropLast =
        g.history := hdrop
    rw [this]
    rcases hg : g.history.getLast? with _ | prev
    · exact ((hinv.lastNone hg).1).symm
    · exact (hinv.lastSome prev hg).symm

theorem c3_place_undo_witness :
    Reachable (Game.new defaultConfig) ∧
    (((Game.new defaultConfig).placeStone ⟨7, 7⟩ 0).1 = true) ∧
    (((Game.new defaultConfig).placeStone ⟨7, 7⟩ 0).2.gameStatus =
      .playing) ∧
    ((((Game.new defaultConfig).placeStone ⟨7, 7⟩ 0).2.undo).1 = true ∧
     (((Game.new defaultConfig).placeStone ⟨7, 7⟩ 0).2.undo).2.board =
       (Game.new defaultConfig).board ∧
     (((Game.new defaultConfig).placeStone ⟨7, 7⟩ 0).2.undo).2.history =
       (Game.new defaultConfig).history ∧
     (((Game.new defaultConfig).placeStone ⟨7, 7⟩ 0).2.undo).2.currentPlayer =
       (Game.new defaultConfig).currentPlayer ∧
     (((Game.new defaultConfig).placeStone ⟨7, 7⟩ 0).2.undo).2.lastMove =
       (Game.new defaultConfig).lastMove) :=
  ⟨Reachable.init defaultConfig, by decide, by decide,
    c3_place_undo (Game.new defaultConfig) ⟨7, 7⟩ 0
      (Reachable.init defaultConfig) (by decide) (by decide)⟩

/-! ## C5 — draw iff full board and no winning run -/

lemma isDraw_iff (g : Game) :
    g.isDraw = true ↔
      ∀ r < g.config.boardSize, ∀ c < g.config.boardSize,
        (getCell g.board (r : Int) (c : Int)).isSome = true := by
  unfold Game.isDraw
  simp [List.all_eq_true]

lemma getEmptyPositions_nil_iff (g : Game) :
    g.getEmptyPositions = [] ↔
      ∀ r < g.config.boardSize, ∀ c < g.config.boardSize,
        (getCell g.board (r : Int) (c : Int)).isSome = true := by
  unfold Game.getEmptyPositions
  rw [List.flatMap_eq_nil_iff]
  constructor
  · intro h r hr c hc
    have := h r (List.mem_range.2 hr)
    rw [List.filterMap_eq_nil_iff] at this
    have hcell := this c (List.mem_range.2 hc)
    by_cases hn : getCell g.board (r : Int) (c : Int) = none
    · rw [if_pos hn] at hcell
      exact Option.noConfusion hcell
    · simpa [Option.isSome_iff_ne_none] using hn
  · intro h r hr
    rw [List.filterMap_eq_nil_iff]
    intro c hc
    have := h r (List.mem_range.1 hr) c (List.mem_range.1 hc)
    rw [if_neg]
    intro hn
    rw [hn] at this
    simp at this

/-- C5 — a successful placement from a reachable Playing state sets the
status to Draw iff afterwards every one of the boardSize² cells is occupied
and no axis through the placed stone carries a run of `winCount` (the win
check takes precedence); equivalently, iff `getEmptyPositions` is empty and
no win was declared. -/
theorem c5_draw_iff (g : Game) (p : Position) (ts : Nat)
    (hre : Reachable g) (hst : g.gameStatus = .playing)
    (hv : g.isValidPosition p) (he : getCell g.board p.row p.col = none) :
    ((g.placeStone p ts).2.gameStatus = .draw ↔
      ((∀ r < g.config.boardSize, ∀ c < g.config.boardSize,
          (getCell (g.placeStone p ts).2.board (r : Int) (c : Int)).isSome =
            true) ∧
        ¬ hasRun (setCell g.board p.row p.col (some g.currentPlayer))
            g.currentPlayer p g.config.winCount)) ∧
    ((g.placeStone p ts).2.gameStatus = .draw ↔
      ((g.placeStone p ts).2.getEmptyPositions = [] ∧
        ¬ hasRun (setCell g.board p.row p.col (some g.currentPlayer))
            g.currentPlayer p g.config.winCount)) := by
  have hinv := hre.inv
  have hwf1 : BWF g.config.boardSize
      (setCell g.board p.row p.col (some g.currentPlayer)) :=
    BWF_setCell hinv.wf _ _ _
  have hcellp : getCell (setCell g.board p.row p.col (some g.currentPlayer))
      p.row p.col = some g.currentPlayer :=
    getCell_setCell_self hinv.wf hv _
  rw [placeStone_legal hv he hst]
  rcases hcw : (g.placed p ts).checkWin p with _ | ps
  · have hnorun : ¬ hasRun (setCell g.board p.row p.col
        (some g.currentPlayer)) g.currentPlayer p g.config.winCount := by
      have := @checkWin_none_iff (g.placed p ts) p g.currentPlayer hwf1 hcellp
      exact this.1 hcw
    by_cases hdraw : (g.placed p ts).isDraw = true
    · rw [if_pos hdraw]
      have hfull := (isDraw_iff (g.placed p ts)).1 hdraw
      constructor
      · exact iff_of_true rfl ⟨hfull, hnorun⟩
      · refine iff_of_true rfl ⟨?_, hnorun⟩
        exact (getEmptyPositions_nil_iff _).2 hfull
    · rw [if_neg hdraw]
      have hnotfull : ¬ ∀ r < g.config.boardSize, ∀ c < g.config.boardSize,
          (getCell (g.placed p ts).board (r : Int) (c : Int)).isSome =
            true := by
        intro hfull
        exact hdraw ((isDraw_iff (g.placed p ts)).2 hfull)
      constructor
      · refine iff_of_false ?_ fun hc => hnotfull hc.1
        show (g.placed p ts).gameStatus ≠ .draw
        show g.gameStatus ≠ .draw
        rw [hst]
        exact fun h => GameStatus.noConfusion h
      · refine iff_of_false ?_ fun hc =>
          hnotfull ((getEmptyPositions_nil_iff _).1 hc.1)
        show (g.placed p ts).gameStatus ≠ .draw
        show g.gameStatus ≠ .draw
        rw [hst]
        exact fun h => GameStatus.noConfusion h
  · have hrun : hasRun (setCell g.board p.row p.col (some g.currentPlayer))
        g.currentPlayer p g.config.winCount := by
      have := @checkWin_isSome_iff (g.placed p ts) p g.currentPlayer hwf1
        hcellp
      exact this.1 (by rw [hcw]; rfl)
    constructor
    · refine iff_of_false ?_ fun hc => hc.2 hrun
      by_cases hb : g.currentPlayer = .black <;> simp [hb]
    · refine iff_of_false ?_ fun hc => hc.2 hrun
      by_cases hb : g.currentPlayer = .black <;> simp [hb]

theorem c5_draw_iff_witness :
    Reachable (Game.new defaultConfig) ∧
    (Game.new defaultConfig).gameStatus = .playing ∧
    (Game.new defaultConfig).isValidPosition ⟨0, 0⟩ ∧
    getCell (Game.new defaultConfig).board 0 0 = none ∧
    ((((Game.new defaultConfig).placeStone ⟨0, 0⟩ 0).2.gameStatus = .draw ↔
      ((∀ r < (Game.new defaultConfig).config.boardSize,
          ∀ c < (Game.new defaultConfig).config.boardSize,
          (getCell ((Game.new defaultConfig).placeStone ⟨0, 0⟩ 0).2.board
            (r : Int) (c : Int)).isSome = true) ∧
        ¬ hasRun (setCell (Game.new defaultConfig).board 0 0
            (some (Game.new defaultConfig).currentPlayer))
          (Game.new defaultConfig).currentPlayer ⟨0, 0⟩
          (Game.new defaultConfig).config.winCount)) ∧
     (((Game.new defaultConfig).placeStone ⟨0, 0⟩ 0).2.gameStatus = .draw ↔
      (((Game.new defaultConfig).placeStone ⟨0, 0⟩ 0).2.getEmptyPositions =
          [] ∧
        ¬ hasRun (setCell (Game.new defaultConfig).board 0 0
            (some (Game.new defaultConfig).currentPlayer))
          (Game.new defaultConfig).currentPlayer ⟨0, 0⟩
          (Game.new defaultConfig).config.winCount))) :=
  ⟨Reachable.init defaultConfig, rfl, by decide, by decide,
    c5_draw_iff (Game.new defaultConfig) ⟨0, 0⟩ 0
      (Reachable.init defaultConfig) rfl (by decide) (by decide)⟩

/-! ## C1 — win detection is line-complete -/

/-- C1 — from a reachable Playing state and an in-bounds empty `p`: if
placing the current player's stone at `p` creates, along one of the 4
checked axes, a contiguous run of at least `winCount` same-owner stones
through `p`, then `placeStone p` succeeds, sets the status to that owner's
win, and records a winning line of at least `winCount` positions that all
hold the owner's stone, all lie on one axis through `p` (`p` among them), and
form a contiguous, gap-free window of that axis; if no axis reaches
`winCount`, the status does not become a win and the winning line stays
`none`. -/
theorem c1_win_detection (g : Game) (p : Position) (ts : Nat)
    (hre : Reachable g) (hst : g.gameStatus = .playing)
    (hv : g.isValidPosition p) (he : getCell g.board p.row p.col = none) :
    (g.placeStone p ts).1 = true ∧
    (hasRun (setCell g.board p.row p.col (some g.currentPlayer))
        g.currentPlayer p g.config.winCount →
      (g.placeStone p ts).2.gameStatus =
        (if g.currentPlayer = .black then GameStatus.blackWin
         else GameStatus.whiteWin) ∧
      ∃ L, (g.placeStone p ts).2.winningPositions = some L ∧
        g.config.winCount ≤ L.length ∧ p ∈ L ∧
        (∀ q ∈ L,
          getCell (setCell g.board p.row p.col (some g.currentPlayer))
            q.row q.col = some g.currentPlayer) ∧
        ∃ d ∈ axisDirs, ∃ lo hi : Int, lo ≤ 0 ∧ 0 ≤ hi ∧
          (∀ q ∈ L, ∃ i : Int, lo ≤ i ∧ i ≤ hi ∧
            q = ⟨p.row + i * d.1, p.col + i * d.2⟩) ∧
          (∀ i : Int, lo ≤ i → i ≤ hi →
            (⟨p.row + i * d.1, p.col + i * d.2⟩ : Position) ∈ L)) ∧
    (¬ hasRun (setCell g.board p.row p.col (some g.currentPlayer))
        g.currentPlayer p g.config.winCount →
      (g.placeStone p ts).2.gameStatus ≠ .blackWin ∧
      (g.placeStone p ts).2.gameStatus ≠ .whiteWin ∧
      (g.placeStone p ts).2.winningPositions = none) := by
  have hinv := hre.inv
  have hwf1 : BWF g.config.boardSize
      (setCell g.board p.row p.col (some g.currentPlayer)) :=
    BWF_setCell hinv.wf _ _ _
  have hcellp : getCell (setCell g.board p.row p.col (some g.currentPlayer))
      p.row p.col = some g.currentPlayer :=
    getCell_setCell_self hinv.wf hv _
  rw [placeStone_legal hv he hst]
  rcases hcw : (g.placed p ts).checkWin p with _ | ps
  · have hnorun : ¬ hasRun (setCell g.board p.row p.col
        (some g.currentPlayer)) g.currentPlayer p g.config.winCount :=
      (@checkWin_none_iff (g.placed p ts) p g.currentPlayer hwf1 hcellp).1 hcw
    by_cases hdraw : (g.placed p ts).isDraw = true
    · rw [if_pos hdraw]
      refine ⟨rfl, fun hr => absurd hr hnorun, fun _ => ?_⟩
      refine ⟨by simp, by simp, ?_⟩
      show (g.placed p ts).winningPositions = none
      show g.winningPositions = none
      exact hinv.winline hst
    · rw [if_neg hdraw]
      refine ⟨rfl, fun hr => absurd hr hnorun, fun _ => ?_⟩
      refine ⟨?_, ?_, ?_⟩
      · show (g.placed p ts).gameStatus ≠ .blackWin
        show g.gameStatus ≠ .blackWin
        rw [hst]
        exact fun h => GameStatus.noConfusion h
      · show (g.placed p ts).gameStatus ≠ .whiteWin
        show g.gameStatus ≠ .whiteWin
        rw [hst]
        exact fun h => GameStatus.noConfusion h
      · show (g.placed p ts).winningPositions = none
        show g.winningPositions = none
        exact hinv.winline hst
  · have hrun : hasRun (setCell g.board p.row p.col (some g.currentPlayer))
        g.currentPlayer p g.config.winCount :=
      (@checkWin_isSome_iff (g.placed p ts) p g.currentPlayer hwf1
        hcellp).1 (by rw [hcw]; rfl)
    obtain ⟨hlen, hmem, hcells, d, hd, lo, hi, hlo, hhi, hfwd, hcov⟩ :=
      @checkWin_some_props (g.placed p ts) p g.currentPlayer hcellp ps hcw
    refine ⟨rfl, fun _ => ⟨rfl, ps, rfl, hlen, hmem, hcells, d, hd, lo, hi,
      hlo, hhi, hfwd, hcov⟩, fun hn => absurd hrun hn⟩

theorem c1_win_detection_witness :
    Reachable (Game.new defaultConfig) ∧
    (Game.new defaultConfig).gameStatus = .playing ∧
    (Game.new defaultConfig).isValidPosition ⟨7, 7⟩ ∧
    getCell (Game.new defaultConfig).board 7 7 = none ∧
    (((Game.new defaultConfig).placeStone ⟨7, 7⟩ 0).1 = true ∧
     (hasRun (setCell (Game.new defaultConfig).board 7 7
          (some (Game.new defaultConfig).currentPlayer))
        (Game.new defaultConfig).currentPlayer ⟨7, 7⟩
        (Game.new defaultConfig).config.winCount →
      ((Game.new defaultConfig).placeStone ⟨7, 7⟩ 0).2.gameStatus =
        (if (Game.new defaultConfig).currentPlayer = .black then
          GameStatus.blackWin
         else GameStatus.whiteWin) ∧
      ∃ L, ((Game.new defaultConfig).placeStone ⟨7, 7⟩ 0).2.winningPositions
          = some L ∧
        (Game.new defaultConfig).config.winCount ≤ L.length ∧
        (⟨7, 7⟩ : Position) ∈ L ∧
        (∀ q ∈ L,
          getCell (setCell (Game.new defaultConfig).board 7 7
            (some (Game.new defaultConfig).currentPlayer)) q.row q.col =
              some (Game.new defaultConfig).currentPlayer) ∧
        ∃ d ∈ axisDirs, ∃ lo hi : Int, lo ≤ 0 ∧ 0 ≤ hi ∧
          (∀ q ∈ L, ∃ i : Int, lo ≤ i ∧ i ≤ hi ∧
            q = ⟨7 + i * d.1, 7 + i * d.2⟩) ∧
          (∀ i : Int, lo ≤ i → i ≤ hi →
            (⟨7 + i * d.1, 7 + i * d.2⟩ : Position) ∈ L)) ∧
     (¬ hasRun (setCell (Game.new defaultConfig).board 7 7
          (some (Game.new defaultConfig).currentPlayer))
        (Game.new defaultConfig).currentPlayer ⟨7, 7⟩
        (Game.new defaultConfig).config.winCount →
      ((Game.new defaultConfig).placeStone ⟨7, 7⟩ 0).2.gameStatus ≠
        .blackWin ∧
      ((Game.new defaultConfig).placeStone ⟨7, 7⟩ 0).2.gameStatus ≠
        .whiteWin ∧
      ((Game.new defaultConfig).placeStone ⟨7, 7⟩ 0).2.winningPositions =
        none)) :=
  ⟨Reachable.init defaultConfig, rfl, by decide, by decide,
    c1_win_detection (Game.new defaultConfig) ⟨7, 7⟩ 0
      (Reachable.init defaultConfig) rfl (by decide) (by decide)⟩

/-! ## C8 — the normal-tier scored fallback -/

/-- The fallback loop state: `rest.foldl step (m0, score m0)` (the source's
`bestMove`/`bestScore` pair after the first candidate has been absorbed). -/
def pickBestGo (score : Position → Int) (init : Position × Int)
    (l : List Position) : Position × Int :=
  l.foldl (fun best q => if score q > best.2 then (q, score q) else best) init

lemma pickBest_eq_go (score : Position → Int) (p : Position)
    (rest : List Position) :
    pickBest score (p :: rest) =
      some (pickBestGo score (p, score p) rest).1 := rfl

lemma pickBestGo_cons (score : Position → Int) (m0 x : Position)
    (xs : List Position) :
    pickBestGo score (m0, score m0) (x :: xs) =
      if score x > score m0 then pickBestGo score (x, score x) xs
      else pickBestGo score (m0, score m0) xs := by
  unfold pickBestGo
  simp only [List.foldl_cons]
  by_cases hx : score x > score m0 <;> simp [hx]

lemma pickBestGo_spec (score : Position → Int) (l : List Position)
    (m0 : Position) :
    score m0 ≤ score (pickBestGo score (m0, score m0) l).1 ∧
    (∀ q ∈ l, score q ≤ score (pickBestGo score (m0, score m0) l).1) ∧
    ((pickBestGo score (m0, score m0) l).1 = m0 ∨
      (score m0 < score (pickBestGo score (m0, score m0) l).1 ∧
        ∃ l1 l2, l = l1 ++ (pickBestGo score (m0, score m0) l).1 :: l2 ∧
          ∀ q ∈ l1, score q < score (pickBestGo score (m0, score m0) l).1)) := by
  induction l generalizing m0 with
  | nil => exact ⟨le_rfl, by simp, Or.inl rfl⟩
  | cons x xs ih =>
    rw [pickBestGo_cons]
    by_cases hx : score x > score m0
    · rw [if_pos hx]
      obtain ⟨h2, h3, h4⟩ := ih x
      refine ⟨by omega, ?_, ?_⟩
      · intro q hq
        rcases List.mem_cons.1 hq with rfl | hq
        · exact h2
        · exact h3 q hq
      · rcases h4 with heq | ⟨hlt, l1, l2, hsplit, hsmall⟩
        · refine Or.inr ⟨by omega, [], xs, ?_, by simp⟩
          rw [heq]
          rfl
        · refine Or.inr ⟨by omega, x :: l1, l2, by rw [List.cons_append, ← hsplit], ?_⟩
          intro q hq
          rcases List.mem_cons.1 hq with rfl | hq
          · omega
          · exact hsmall q hq
    · rw [if_neg hx]
      obtain ⟨h2, h3, h4⟩ := ih m0
      refine ⟨h2, ?_, ?_⟩
      · intro q hq
        rcases List.mem_cons.1 hq with rfl | hq
        · omega
        · exact h3 q hq
      · rcases h4 with heq | ⟨hlt, l1, l2, hsplit, hsmall⟩
        · exact Or.inl heq
        · refine Or.inr ⟨hlt, x :: l1, l2, by rw [List.cons_append, ← hsplit], ?_⟩
          intro q hq
          rcases List.mem_cons.1 hq with rfl | hq
          · omega
          · exact hsmall q hq

/-- Modelled from the claim's words (C8): the same selector, but scoring with
the manhattan distance to the integer-division center cell
`(boardSize/2, boardSize/2)`.  Like `normalScore20`, the value is 20 times
the claimed score `E_mover − E_opp − 0.1·d`, so comparisons are identical. -/
def claimedScore20 (bd : Board) (ai : Stone) (p : Position) : Int :=
  20 * (evaluatePosition bd p ai - evaluatePosition bd p ai.other)
    - 2 * (|p.row - ((bd.length / 2 : Nat) : Int)| +
           |p.col - ((bd.length / 2 : Nat) : Int)|)

/-- Modelled from the claim's words (C8): win layer, block layer, then the
scored fallback with the integer-division center. -/
def claimedNormalMove (ai : Stone) (w : Nat) (bd : Board)
    (es : List Position) : Option Position :=
  match es.find? fun pos => checkWinAt (boardPlace bd pos ai) pos ai w with
  | some pos => some pos
  | none =>
    match es.find? fun pos =>
        checkWinAt (boardPlace bd pos ai.other) pos ai.other w with
    | some pos => some pos
    | none => pickBest (claimedScore20 bd ai) es

/-- The C8 counterexample board: 3×3, Black stones at (0,1) and (2,1),
`winCount = 5` (no win or block layer can fire). -/
def bd3 : Board :=
  [[none, some .black, none], [none, none, none], [none, some .black, none]]

/-- The game state carrying `bd3` (config 3×3, winCount 5). -/
def g3 : Game :=
  { Game.new { boardSize := 3, winCount := 5, gameMode := .pvp, difficulty := some .easy, timeLimit := none } with
    board := bd3 }

/-- The row-major empty positions of `bd3`. -/
def es3 : List Position :=
  [⟨0, 0⟩, ⟨0, 2⟩, ⟨1, 0⟩, ⟨1, 1⟩, ⟨1, 2⟩, ⟨2, 0⟩, ⟨2, 2⟩]

/-- C8 counterexample — on `bd3` the code's selector (center at
`boardSize / 2` with real JS division, here 1.5) returns `(2,2)`, while the
claim's selector (integer-division center `(1,1)`) returns `(0,0)`: the
claimed score formula does not describe the code. -/
theorem c8_counterexample :
    g3.getEmptyPositions = es3 ∧
    getNormalMove .black 5 bd3 es3 = some ⟨2, 2⟩ ∧
    claimedNormalMove .black 5 bd3 es3 = some ⟨0, 0⟩ := by
  refine ⟨by decide, by decide, by decide⟩

/-- C8 amended — in the normal tier, when no empty position wins immediately
for the mover and none blocks an immediate opponent win, the selector assigns
every empty position the score
`evaluatePosition(mover) − evaluatePosition(opponent) − 0.1 × (manhattan
distance to the exact center (boardSize/2, boardSize/2) with real division)`
(embedded ×20 as an integer) and returns the position with the maximum
score, the first position in the candidate order winning ties. -/
theorem c8_fallback_argmax (ai : Stone) (w : Nat) (bd : Board)
    (es : List Position) (hne : es ≠ [])
    (hnw : ∀ q ∈ es, checkWinAt (boardPlace bd q ai) q ai w = false)
    (hnb : ∀ q ∈ es,
      checkWinAt (boardPlace bd q ai.other) q ai.other w = false) :
    ∃ m, getNormalMove ai w bd es = some m ∧
      (∀ q ∈ es, normalScore20 bd ai q ≤ normalScore20 bd ai m) ∧
      ∃ es1 es2, es = es1 ++ m :: es2 ∧
        ∀ q ∈ es1, normalScore20 bd ai q < normalScore20 bd ai m := by
  unfold getNormalMove
  rw [List.find?_eq_none.2 (fun q hq => by simp [hnw q hq]),
    List.find?_eq_none.2 (fun q hq => by simp [hnb q hq])]
  rcases es with _ | ⟨p0, rest⟩
  · exact absurd rfl hne
  obtain ⟨h2, h3, h4⟩ := pickBestGo_spec (normalScore20 bd ai) rest p0
  refine ⟨(pickBestGo (normalScore20 bd ai) (p0, normalScore20 bd ai p0)
    rest).1, rfl, ?_, ?_⟩
  · intro q hq
    rcases List.mem_cons.1 hq with rfl | hq
    · exact h2
    · exact h3 q hq
  · rcases h4 with heq | ⟨hlt, l1, l2, hsplit, hsmall⟩
    · refine ⟨[], rest, ?_, by simp⟩
      rw [heq]
      rfl
    · refine ⟨p0 :: l1, l2, by rw [List.cons_append, ← hsplit], ?_⟩
      intro q hq
      rcases List.mem_cons.1 hq with rfl | hq
      · exact hlt
      · exact hsmall q hq

theorem c8_fallback_argmax_witness :
    (([(⟨0, 0⟩ : Position)] : List Position) ≠ []) ∧
    (∀ q ∈ [(⟨0, 0⟩ : Position)],
      checkWinAt (boardPlace [[none, none], [none, none]] q .black) q
        .black 5 = false) ∧
    (∀ q ∈ [(⟨0, 0⟩ : Position)],
      checkWinAt (boardPlace [[none, none], [none, none]] q Stone.black.other)
        q Stone.black.other 5 = false) ∧
    ∃ m, getNormalMove .black 5 [[none, none], [none, none]]
        [(⟨0, 0⟩ : Position)] = some m ∧
      (∀ q ∈ [(⟨0, 0⟩ : Position)],
        normalScore20 [[none, none], [none, none]] .black q ≤
          normalScore20 [[none, none], [none, none]] .black m) ∧
      ∃ es1 es2, [(⟨0, 0⟩ : Position)] = es1 ++ m :: es2 ∧
        ∀ q ∈ es1,
          normalScore20 [[none, none], [none, none]] .black q <
            normalScore20 [[none, none], [none, none]] .black m :=
  ⟨by decide, by decide, by decide,
    c8_fallback_argmax .black 5 [[none, none], [none, none]]
      [(⟨0, 0⟩ : Position)] (by decide) (by decide) (by decide)⟩
